import Mathlib

/-!
Verification of the AirETL unstructured-data parsing core and the schema
inference/versioning engine, as a shallow embedding.

Modelling conventions:
* Text is `List Char` (Python `str`).  `chars s` converts a Lean string literal.
* The wall clock (`datetime.now().isoformat()` in `_extract_global_metadata`)
  is modelled as an explicit `now : List Char` argument of `parse_file`.
* The optional third-party libraries are absent (`HAS_PANDAS = HAS_BS4 =
  HAS_YAML = False`), so the repository's own fallback branches are embedded;
  the pandas / BeautifulSoup / yaml code paths are thin wrappers around
  external collaborators and are out of scope of the core.
* Python exceptions are modelled with `Except String`; `re` patterns are
  embedded as specialised deterministic matchers, one per pattern literal,
  following Python's leftmost, non-overlapping `findall`/`sub`/`search`
  semantics (ASCII character classes; Unicode letter/digit/space categories
  beyond ASCII are not modelled).
* `src/schema_inference/engine.py` is not part of the source tree (only its
  importers are), so the schema engine is modelled from the spec, marked
  `Modelled from the spec:` on each definition.
-/

/-- Characters of a string literal. -/
def chars (s : String) : List Char := s.data

/-- Python whitespace for `str.strip()` and the regex class `\s`
(ASCII: space, tab, newline, carriage return, vertical tab, form feed). -/
def pySpace (c : Char) : Bool :=
  c = ' ' || c = '\t' || c = '\n' || c = '\r' || c = '\x0b' || c = '\x0c'

/-- Regex word character `\w` (ASCII). -/
def wordChar (c : Char) : Bool :=
  let n := c.toNat
  (97 ≤ n && n ≤ 122) || (65 ≤ n && n ≤ 90) || (48 ≤ n && n ≤ 57) || n == 95

/-- ASCII decimal digit. -/
def asciiDigit (c : Char) : Bool :=
  let n := c.toNat
  48 ≤ n && n ≤ 57

/-- ASCII letter. -/
def asciiAlpha (c : Char) : Bool :=
  let n := c.toNat
  (97 ≤ n && n ≤ 122) || (65 ≤ n && n ≤ 90)

/-- ASCII lower-casing, for case-insensitive matching (`re.IGNORECASE`). -/
def lowerC (c : Char) : Char :=
  let n := c.toNat
  if 65 ≤ n && n ≤ 90 then Char.ofNat (n + 32) else c

def lowerL (l : List Char) : List Char := l.map lowerC

/-- Python `str.lstrip()` over a custom character predicate. -/
def lstripP (p : Char → Bool) : List Char → List Char
  | [] => []
  | c :: cs => if p c then lstripP p cs else c :: cs

/-- Python `str.rstrip()` over a custom character predicate. -/
def rstripP (p : Char → Bool) (l : List Char) : List Char :=
  ((l.reverse).dropWhile p).reverse

/-- Python `str.strip()` over a custom character predicate. -/
def stripP (p : Char → Bool) (l : List Char) : List Char :=
  rstripP p (lstripP p l)

/-- Python `str.strip()` (default whitespace). -/
def pyStrip (l : List Char) : List Char := stripP pySpace l

/-- Python `in` on strings: `sub in l`. -/
def containsSub (sub : List Char) : List Char → Bool
  | [] => sub.isEmpty
  | c :: cs => sub.isPrefixOf (c :: cs) || containsSub sub cs

/-- Python `c in l` for a single character. -/
def containsChar (c : Char) (l : List Char) : Bool := l.contains c

/-- Python `str.startswith`. -/
def startsWithL (pre l : List Char) : Bool := pre.isPrefixOf l

/-- Python `str.split(sep)` on a single-character separator (keeps empties). -/
def splitOnC (sep : Char) : List Char → List (List Char)
  | [] => [[]]
  | c :: cs =>
    if c = sep then [] :: splitOnC sep cs
    else
      match splitOnC sep cs with
      | [] => [[c]]
      | l :: ls => (c :: l) :: ls

/-- Python `str.split(sep, 1)` when the separator occurs: returns the part
before the first `sep` and the part after it. -/
def splitFirst (sep : Char) : List Char → Option (List Char × List Char)
  | [] => none
  | c :: cs =>
    if c = sep then some ([], cs)
    else match splitFirst sep cs with
      | some (a, b) => some (c :: a, b)
      | none => none

/-- Python `str.split()` with no argument: split on whitespace runs,
dropping empty fields. -/
def splitWs (l : List Char) : List (List Char) :=
  (splitOnWsAux l).filter (fun w => !w.isEmpty)
where
  splitOnWsAux : List Char → List (List Char)
    | [] => [[]]
    | c :: cs =>
      if pySpace c then [] :: splitOnWsAux cs
      else
        match splitOnWsAux cs with
        | [] => [[c]]
        | l :: ls => (c :: l) :: ls

/-- First index at which `needle` occurs in `hay` (case-sensitive). -/
def findSub (needle : List Char) : List Char → Option Nat
  | [] => if needle.isEmpty then some 0 else none
  | c :: cs =>
    if needle.isPrefixOf (c :: cs) then some 0
    else (findSub needle cs).map (· + 1)

/-- Values appearing in a parsed Record (Python scalars / dicts / lists).
Floats are carried as their source literal: the embedded code only stores
float values, never computes with them. -/
inductive Value where
  | str : List Char → Value
  | int : Int → Value
  | float : List Char → Value
  | bool : Bool → Value
  | null : Value
  | list : List Value → Value
  | obj : List (List Char × Value) → Value

/-- A Record: a Python dict in insertion order. -/
abbrev Rec := List (List Char × Value)

mutual
def valueBeq : Value → Value → Bool
  | .str a, .str b => a = b
  | .int a, .int b => a = b
  | .float a, .float b => a = b
  | .bool a, .bool b => a = b
  | .null, .null => true
  | .list a, .list b => valueListBeq a b
  | .obj a, .obj b => fieldsBeq a b
  | _, _ => false
def valueListBeq : List Value → List Value → Bool
  | [], [] => true
  | a :: as', b :: bs => valueBeq a b && valueListBeq as' bs
  | _, _ => false
def fieldsBeq : List (List Char × Value) → List (List Char × Value) → Bool
  | [], [] => true
  | (k, v) :: as', (k', v') :: bs => k = k' && valueBeq v v' && fieldsBeq as' bs
  | _, _ => false
end

mutual
theorem valueBeq_iff : ∀ a b : Value, valueBeq a b = true ↔ a = b
  | .str a, .str b => by simp [valueBeq]
  | .int a, .int b => by simp [valueBeq]
  | .float a, .float b => by simp [valueBeq]
  | .bool a, .bool b => by simp [valueBeq]
  | .null, .null => by simp [valueBeq]
  | .list a, .list b => by
      simp [valueBeq, valueListBeq_iff a b]
  | .obj a, .obj b => by
      simp [valueBeq, fieldsBeq_iff a b]
  | .str _, .int _ | .str _, .float _ | .str _, .bool _ | .str _, .null
  | .str _, .list _ | .str _, .obj _
  | .int _, .str _ | .int _, .float _ | .int _, .bool _ | .int _, .null
  | .int _, .list _ | .int _, .obj _
  | .float _, .str _ | .float _, .int _ | .float _, .bool _ | .float _, .null
  | .float _, .list _ | .float _, .obj _
  | .bool _, .str _ | .bool _, .int _ | .bool _, .float _ | .bool _, .null
  | .bool _, .list _ | .bool _, .obj _
  | .null, .str _ | .null, .int _ | .null, .float _ | .null, .bool _
  | .null, .list _ | .null, .obj _
  | .list _, .str _ | .list _, .int _ | .list _, .float _ | .list _, .bool _
  | .list _, .null | .list _, .obj _
  | .obj _, .str _ | .obj _, .int _ | .obj _, .float _ | .obj _, .bool _
  | .obj _, .null | .obj _, .list _ => by simp [valueBeq]
theorem valueListBeq_iff : ∀ a b : List Value, valueListBeq a b = true ↔ a = b
  | [], [] => by simp [valueListBeq]
  | a :: as', b :: bs => by
      simp [valueListBeq, valueBeq_iff a b, valueListBeq_iff as' bs]
  | [], _ :: _ | _ :: _, [] => by simp [valueListBeq]
theorem fieldsBeq_iff : ∀ a b : List (List Char × Value), fieldsBeq a b = true ↔ a = b
  | [], [] => by simp [fieldsBeq]
  | (k, v) :: as', (k', v') :: bs => by
      simp [fieldsBeq, valueBeq_iff v v', fieldsBeq_iff as' bs]
  | [], _ :: _ | _ :: _, [] => by simp [fieldsBeq]
end

instance : DecidableEq Value := fun a b =>
  decidable_of_iff (valueBeq a b = true) (valueBeq_iff a b)

instance {ε α : Type} [DecidableEq ε] [DecidableEq α] : DecidableEq (Except ε α) :=
  fun x y =>
    match x, y with
    | .ok a, .ok b =>
      if h : a = b then .isTrue (by rw [h])
      else .isFalse (by intro hc; cases hc; exact h rfl)
    | .error a, .error b =>
      if h : a = b then .isTrue (by rw [h])
      else .isFalse (by intro hc; cases hc; exact h rfl)
    | .ok _, .error _ => .isFalse (by intro hc; cases hc)
    | .error _, .ok _ => .isFalse (by intro hc; cases hc)

/-- Python dict assignment `d[k] = v`: replace in place if the key exists,
else append (dicts preserve insertion order). -/
def dictInsert (k : List Char) (v : Value) : Rec → Rec
  | [] => [(k, v)]
  | (k', v') :: rest =>
    if k' = k then (k', v) :: rest
    else (k', v') :: dictInsert k v rest

/-- Python dict lookup `d[k]` / `d.get(k)`. -/
def recLookup (r : Rec) (k : List Char) : Option Value :=
  match r.find? (fun p => p.1 = k) with
  | some p => some p.2
  | none => none

/-- Python `d.update(m)`: insert every pair of `m` in order. -/
def recUpdate (r : Rec) (m : Rec) : Rec :=
  m.foldl (fun acc p => dictInsert p.1 p.2 acc) r

/-- Key removal (deletes every entry with the key). -/
def recErase (k : List Char) (r : Rec) : Rec :=
  r.filter (fun p => p.1 ≠ k)

/-- Python `in` on a dict's keys. -/
def recHasKey (r : Rec) (k : List Char) : Bool :=
  r.any (fun p => p.1 = k)

/-! ### JSON parsing (`json.loads`)

A strict RFC-8259 recursive-descent parser with the CPython extensions
(`NaN`, `Infinity`, `-Infinity`).  JSON whitespace is space, tab, newline,
carriage return.  Numbers with a fraction or exponent become `Value.float`
(carrying the literal); plain integers become `Value.int`.  Error messages
are abbreviated forms of CPython's (without line/column positions); no
embedded theorem depends on their exact text. -/

def jsonWs (c : Char) : Bool := c = ' ' || c = '\t' || c = '\n' || c = '\r'

def skipJsonWs (l : List Char) : List Char := l.dropWhile jsonWs

def hexVal (c : Char) : Option Nat :=
  let n := c.toNat
  if 48 ≤ n && n ≤ 57 then some (n - 48)
  else if 97 ≤ n && n ≤ 102 then some (n - 87)
  else if 65 ≤ n && n ≤ 70 then some (n - 55)
  else none

/-- JSON string body after the opening quote.  Returns the decoded
characters and the input remaining after the closing quote; the fuel
(initially the input length plus one) strictly dominates the number of
steps, so it never runs out.
(`\uXXXX` escapes outside the valid `Char` range decode to `'\0'`;
surrogate pairing is not modelled — no embedded input uses `\u`.) -/
def jsonStringF : Nat → List Char → Except (List Char) (List Char × List Char)
  | 0, _ => .error (chars "out of fuel")
  | fuel+1, l =>
    match l with
    | [] => .error (chars "Unterminated string starting at")
    | '"' :: rest => .ok ([], rest)
    | '\\' :: rest =>
      (match rest with
       | [] => .error (chars "Unterminated string starting at")
       | e :: r2 =>
         if e = '"' then (jsonStringF fuel r2).map (fun p => ('"' :: p.1, p.2))
         else if e = '\\' then (jsonStringF fuel r2).map (fun p => ('\\' :: p.1, p.2))
         else if e = '/' then (jsonStringF fuel r2).map (fun p => ('/' :: p.1, p.2))
         else if e = 'b' then (jsonStringF fuel r2).map (fun p => ('\x08' :: p.1, p.2))
         else if e = 'f' then (jsonStringF fuel r2).map (fun p => ('\x0c' :: p.1, p.2))
         else if e = 'n' then (jsonStringF fuel r2).map (fun p => ('\n' :: p.1, p.2))
         else if e = 'r' then (jsonStringF fuel r2).map (fun p => ('\r' :: p.1, p.2))
         else if e = 't' then (jsonStringF fuel r2).map (fun p => ('\t' :: p.1, p.2))
         else if e = 'u' then
           match r2 with
           | h1 :: h2 :: h3 :: h4 :: r3 =>
             (match hexVal h1, hexVal h2, hexVal h3, hexVal h4 with
              | some a, some b, some c, some d =>
                (jsonStringF fuel r3).map
                  (fun p => (Char.ofNat (((a * 16 + b) * 16 + c) * 16 + d) :: p.1, p.2))
              | _, _, _, _ => .error (chars "Invalid \\uXXXX escape"))
           | _ => .error (chars "Invalid \\uXXXX escape")
         else .error (chars "Invalid \\escape"))
    | c :: rest =>
      if c.toNat < 0x20 then .error (chars "Invalid control character")
      else (jsonStringF fuel rest).map (fun p => (c :: p.1, p.2))

def jsonString (l : List Char) : Except (List Char) (List Char × List Char) :=
  jsonStringF (l.length + 1) l

/-- JSON number, starting at a digit or `-` (the caller checked).  Follows
`NUMBER_RE`: `-?(0|[1-9]\d*)(\.\d+)?([eE][+-]?\d+)?`. -/
def jsonNumber (l : List Char) : Except (List Char) (Value × List Char) :=
  let (sign, l1) : List Char × List Char :=
    match l with
    | '-' :: r => (['-'], r)
    | _ => ([], l)
  match l1 with
  | c :: r1 =>
    if !asciiDigit c then .error (chars "Expecting value")
    else
      let intPart : List Char × List Char :=
        if c = '0' then (['0'], r1)
        else (c :: r1.takeWhile asciiDigit, r1.dropWhile asciiDigit)
      let (ds, r2) := intPart
      let frac : List Char × List Char :=
        match r2 with
        | '.' :: r3 =>
          if (r3.headD ' ').toNat ≥ '0'.toNat && asciiDigit (r3.headD ' ')
          then ('.' :: r3.takeWhile asciiDigit, r3.dropWhile asciiDigit)
          else ([], r2)
        | _ => ([], r2)
      let (fs, r4) := frac
      let expo : List Char × List Char :=
        match r4 with
        | e :: r5 =>
          if e = 'e' || e = 'E' then
            let (es, r6) : List Char × List Char :=
              match r5 with
              | s :: r7 => if s = '+' || s = '-' then ([s], r7) else ([], r5)
              | [] => ([], r5)
            if asciiDigit (r6.headD ' ')
            then (e :: es ++ r6.takeWhile asciiDigit, r6.dropWhile asciiDigit)
            else ([], r4)
          else ([], r4)
        | [] => ([], r4)
      let (xs, r8) := expo
      if fs.isEmpty && xs.isEmpty then
        let n : Nat := ds.foldl (fun acc d => acc * 10 + (d.toNat - '0'.toNat)) 0
        .ok (.int (if sign.isEmpty then (n : Int) else -(n : Int)), r8)
      else .ok (.float (sign ++ ds ++ fs ++ xs), r8)
  | [] => .error (chars "Expecting value")

mutual
/-- One JSON value at the start of `l` (no leading whitespace skipped). -/
def jsonValueF : Nat → List Char → Except (List Char) (Value × List Char)
  | 0, _ => .error (chars "out of fuel")
  | fuel+1, l =>
    match l with
    | [] => .error (chars "Expecting value")
    | '{' :: rest =>
      let r1 := skipJsonWs rest
      (match r1 with
       | '}' :: r2 => .ok (.obj [], r2)
       | _ => (jsonMembersF fuel r1 []).map (fun p => (.obj p.1, p.2)))
    | '[' :: rest =>
      let r1 := skipJsonWs rest
      (match r1 with
       | ']' :: r2 => .ok (.list [], r2)
       | _ => (jsonElementsF fuel r1 []).map (fun p => (.list p.1, p.2)))
    | '"' :: rest => (jsonString rest).map (fun p => (.str p.1, p.2))
    | c :: _ =>
      if c = 't' && (chars "true").isPrefixOf l then .ok (.bool true, l.drop 4)
      else if c = 'f' && (chars "false").isPrefixOf l then .ok (.bool false, l.drop 5)
      else if c = 'n' && (chars "null").isPrefixOf l then .ok (.null, l.drop 4)
      else if c = 'N' && (chars "NaN").isPrefixOf l then .ok (.float (chars "NaN"), l.drop 3)
      else if c = 'I' && (chars "Infinity").isPrefixOf l then
        .ok (.float (chars "Infinity"), l.drop 8)
      else if c = '-' && (chars "-Infinity").isPrefixOf l then
        .ok (.float (chars "-Infinity"), l.drop 9)
      else if c = '-' || asciiDigit c then jsonNumber l
      else .error (chars "Expecting value")

/-- Object members, positioned at a key (after `{` and whitespace). -/
def jsonMembersF : Nat → List Char → Rec → Except (List Char) (Rec × List Char)
  | 0, _, _ => .error (chars "out of fuel")
  | fuel+1, l, acc =>
    match l with
    | '"' :: rest =>
      match jsonString rest with
      | .error e => .error e
      | .ok (key, r1) =>
        match skipJsonWs r1 with
        | ':' :: r2 =>
          (match jsonValueF fuel (skipJsonWs r2) with
           | .error e => .error e
           | .ok (v, r3) =>
             let acc' := dictInsert key v acc
             match skipJsonWs r3 with
             | ',' :: r4 => jsonMembersF fuel (skipJsonWs r4) acc'
             | '}' :: r4 => .ok (acc', r4)
             | _ => .error (chars "Expecting delimiter"))
        | _ => .error (chars "Expecting colon delimiter")
    | _ => .error (chars "Expecting property name enclosed in double quotes")

/-- Array elements, positioned at a value (after `[` and whitespace). -/
def jsonElementsF : Nat → List Char → List Value →
    Except (List Char) (List Value × List Char)
  | 0, _, _ => .error (chars "out of fuel")
  | fuel+1, l, acc =>
    match jsonValueF fuel l with
    | .error e => .error e
    | .ok (v, r1) =>
      match skipJsonWs r1 with
      | ',' :: r2 => jsonElementsF fuel (skipJsonWs r2) (acc ++ [v])
      | ']' :: r2 => .ok (acc ++ [v], r2)
      | _ => .error (chars "Expecting delimiter")
end

/-- `json.loads`.  The fuel `s.length + 1` strictly dominates the nesting
depth, so it never runs out on any input. -/
def jsonLoads (s : List Char) : Except (List Char) Value :=
  match jsonValueF (s.length + 1) (skipJsonWs s) with
  | .error e => .error e
  | .ok (v, rest) =>
    if (skipJsonWs rest).isEmpty then .ok v else .error (chars "Extra data")

/-! ### Section Splitter (`_extract_sections` / `section_patterns`)

Each `'--- MARKER.*?(?=---|$)'` pattern (re.DOTALL | re.IGNORECASE) takes the
first, case-insensitive occurrence of the marker and extends lazily up to
the next `---` or the end of input (`$` also matches just before a single
trailing newline).  `re.findall(...)[0]` keeps only that first match. -/

/-- Position (offset) of the lazy `(?=---|$)` lookahead: smallest prefix of
`l` after which the rest starts with `---`, is empty, or is a lone trailing
newline. -/
def lazyLen (l : List Char) : Nat :=
  if startsWithL (chars "---") l || l.isEmpty || l = ['\n'] then 0
  else match l with
    | [] => 0
    | _ :: rest => lazyLen rest + 1

/-- First index of a case-insensitive occurrence of `needle`. -/
def findSubCI (needle hay : List Char) : Option Nat :=
  findSub (lowerL needle) (lowerL hay)

/-- First match of `'MARKER.*?(?=---|$)'` with re.DOTALL | re.IGNORECASE. -/
def matchDashSection (marker content : List Char) : Option (List Char) :=
  match findSubCI marker content with
  | none => none
  | some i =>
    let tail := content.drop i
    some (tail.take (marker.length + lazyLen (tail.drop marker.length)))

/-- First match of `'=== VARIANT v2 START ===.*?=== VARIANT v2 END ==='`
(re.DOTALL | re.IGNORECASE): lazily up to the first end marker. -/
def matchVariantSection (content : List Char) : Option (List Char) :=
  let m1 := chars "=== VARIANT v2 START ==="
  let m2 := chars "=== VARIANT v2 END ==="
  match findSubCI m1 content with
  | none => none
  | some i =>
    let tail := content.drop i
    match findSubCI m2 (tail.drop m1.length) with
    | none => none
    | some k => some (tail.take (m1.length + k + m2.length))

/-- The marker catalog, in `section_patterns` insertion order (the
`variant_v2` pattern, of a different shape, is handled separately). -/
def sectionMarkers : List (List Char × List Char) :=
  [ (chars "metadata", chars "--- METADATA"),
    (chars "raw_paragraph", chars "--- RAW PARAGRAPH"),
    (chars "inline_json", chars "--- INLINE JSON"),
    (chars "malformed_json", chars "--- MALFORMED JSON"),
    (chars "html_snippet", chars "--- HTML SNIPPET"),
    (chars "csv_section", chars "--- CSV-LIKE SECTION"),
    (chars "key_value", chars "--- KEY-VALUE KVP BLOCK"),
    (chars "json_ld", chars "--- JSON-LD"),
    (chars "inline_csv", chars "--- INLINE CSV TABLE"),
    (chars "free_text", chars "--- FREE TEXT"),
    (chars "ocr_footer", chars "--- OCR-LIKE PAGE FOOTER"),
    (chars "sql_snippet", chars "--- SQL-LIKE SNIPPET"),
    (chars "repeated_fields", chars "--- REPEATED FIELDS"),
    (chars "ambiguous_types", chars "--- AMBIGUOUS TYPES") ]

/-- `_extract_sections`: tag → first matched span, at most one per tag,
in catalog order. -/
def extractSections (content : List Char) : List (List Char × List Char) :=
  (sectionMarkers.filterMap
    (fun p => (matchDashSection p.2 content).map (fun m => (p.1, m))))
  ++ (match matchVariantSection content with
      | some m => [(chars "variant_v2", m)]
      | none => [])

/-! ### The `json_object` pattern `\{[^{}]*(?:\{[^{}]*\}[^{}]*)*\}`

`re.findall` with re.DOTALL.  The pattern is deterministic: every
quantifier's maximal munch is forced (shrinking `[^{}]*` leaves a non-brace
character where a brace is required, and skipping an iteration of the group
leaves `{` where the final `}` is required). -/

def spanNonBrace (l : List Char) : List Char × List Char :=
  (l.takeWhile (fun c => c ≠ '{' && c ≠ '}'), l.dropWhile (fun c => c ≠ '{' && c ≠ '}'))

/-- `(?:\{[^{}]*\}[^{}]*)*\}` at `l` (positioned after the opening brace's
`[^{}]*` run); returns the consumed text (ending in the closing `}`) and
the rest. -/
def braceGroups : Nat → List Char → Option (List Char × List Char)
  | 0, _ => none
  | fuel+1, l =>
    match l with
    | [] => none
    | c :: rest =>
      if c = '}' then some (['}'], rest)
      else if c = '{' then
        match spanNonBrace rest with
        | (seg, r1) =>
          match r1 with
          | [] => none
          | c2 :: r2 =>
            if c2 = '}' then
              match spanNonBrace r2 with
              | (seg2, r3) =>
                match braceGroups fuel r3 with
                | some (m, r) => some ('{' :: (seg ++ '}' :: (seg2 ++ m)), r)
                | none => none
            else none
      else none

/-- Try the whole `json_object` pattern anchored at the head of `l`. -/
def tryJsonObjAt (fuel : Nat) (l : List Char) : Option (List Char × List Char) :=
  match l with
  | [] => none
  | c :: cs =>
    if c = '{' then
      match spanNonBrace cs with
      | (seg, r1) =>
        match braceGroups fuel r1 with
        | some (m, r) => some ('{' :: (seg ++ m), r)
        | none => none
    else none

/-- `re.findall` scan: leftmost matches, continuing after each match. -/
def findallJsonObjF : Nat → List Char → List (List Char)
  | 0, _ => []
  | _, [] => []
  | fuel+1, c :: cs =>
    match tryJsonObjAt (fuel+1) (c :: cs) with
    | some (m, r) => m :: findallJsonObjF fuel r
    | none => findallJsonObjF fuel cs

/-- `re.findall(self.json_patterns['json_object'], content, re.DOTALL)`. -/
def findallJsonObjects (content : List Char) : List (List Char) :=
  findallJsonObjF content.length content

/-! ### The JSON Repair Cascade's `re.sub` patterns -/

/-- `re.sub(r',(\s*[}\]])', r'\1', s)` — strategy 1: strip a comma that
precedes (possibly after whitespace) a closing bracket; the whitespace and
bracket are kept. -/
def subTrailingCommasF : Nat → List Char → List Char
  | 0, l => l
  | _, [] => []
  | fuel+1, c :: rest =>
    if c = ',' then
      let ws := rest.takeWhile pySpace
      let r2 := rest.dropWhile pySpace
      match r2 with
      | b :: r3 =>
        if b = '}' || b = ']' then ws ++ b :: subTrailingCommasF fuel r3
        else ',' :: subTrailingCommasF fuel rest
      | [] => ',' :: subTrailingCommasF fuel rest
    else c :: subTrailingCommasF fuel rest

/-- `re.sub(r'"\s*\n\s*"', '",\n"', s)` — a quote, a whitespace run
containing a newline, and a quote are rewritten to `",\n"`. -/
def subMissingCommaStrF : Nat → List Char → List Char
  | 0, l => l
  | _, [] => []
  | fuel+1, c :: rest =>
    if c = '"' then
      let ws := rest.takeWhile pySpace
      let r2 := rest.dropWhile pySpace
      match r2 with
      | '"' :: r3 =>
        if ws.contains '\n' then chars "\",\n\"" ++ subMissingCommaStrF fuel r3
        else '"' :: subMissingCommaStrF fuel rest
      | _ => '"' :: subMissingCommaStrF fuel rest
    else c :: subMissingCommaStrF fuel rest

/-- `re.sub(r'(\w+):', r'"\1":', s)` — quote a word run directly followed
by a colon.  (A word run not followed by a colon can be skipped whole: a
match starting inside it would need the same colon.) -/
def subQuoteKeysF : Nat → List Char → List Char
  | 0, l => l
  | _, [] => []
  | fuel+1, c :: rest =>
    if wordChar c then
      let run := c :: rest.takeWhile wordChar
      let r2 := rest.dropWhile wordChar
      match r2 with
      | ':' :: r3 => '"' :: (run ++ '"' :: ':' :: subQuoteKeysF fuel r3)
      | _ => run ++ subQuoteKeysF fuel r2
    else c :: subQuoteKeysF fuel rest

/-- `_fix_malformed_json` (repair strategy 1). -/
def fixMalformedJson (s : List Char) : List Char :=
  let s1 := subTrailingCommasF s.length s
  let s2 := subMissingCommaStrF s1.length s1
  subQuoteKeysF s2.length s2

/-- `re.sub(r'//.*?\n', '', s)` — `.` does not cross newlines, so a line
comment reaches exactly to the first newline (which is also removed);
an unterminated `//` never matches. -/
def subLineCommentsF : Nat → List Char → List Char
  | 0, l => l
  | _, [] => []
  | fuel+1, c :: rest =>
    match c, rest with
    | '/', '/' :: r1 =>
      let r2 := r1.dropWhile (fun d => d ≠ '\n')
      (match r2 with
       | '\n' :: r3 => subLineCommentsF fuel r3
       | _ => '/' :: subLineCommentsF fuel ('/' :: r1))
    | _, _ => c :: subLineCommentsF fuel rest

/-- `re.sub(r'/\*.*?\*/', '', s, flags=re.DOTALL)` — drop from `/*` to the
first `*/`; an unterminated comment never matches. -/
def subBlockCommentsF : Nat → List Char → List Char
  | 0, l => l
  | _, [] => []
  | fuel+1, c :: rest =>
    match c, rest with
    | '/', '*' :: r1 =>
      (match findSub (chars "*/") r1 with
       | some i => subBlockCommentsF fuel (r1.drop (i + 2))
       | none => '/' :: subBlockCommentsF fuel ('*' :: r1))
    | _, _ => c :: subBlockCommentsF fuel rest

/-- `re.sub(r':\s*([a-zA-Z_][a-zA-Z0-9_]*)\s*([,}])', r': "\1"\2', s)` —
quote a bare word value between a colon and `,` or `}`.  The replacement
normalises surrounding whitespace to a single space before the value and
none after it. -/
def subQuoteBareValuesF : Nat → List Char → List Char
  | 0, l => l
  | _, [] => []
  | fuel+1, c :: rest =>
    if c = ':' then
      let r1 := rest.dropWhile pySpace
      match r1 with
      | d :: r2 =>
        if asciiAlpha d || d = '_' then
          let run := d :: r2.takeWhile wordChar
          let r3 := r2.dropWhile wordChar
          let r4 := r3.dropWhile pySpace
          match r4 with
          | b :: r5 =>
            if b = ',' || b = '}' then
              chars ": \"" ++ (run ++ '"' :: b :: subQuoteBareValuesF fuel r5)
            else ':' :: subQuoteBareValuesF fuel rest
          | [] => ':' :: subQuoteBareValuesF fuel rest
        else ':' :: subQuoteBareValuesF fuel rest
      | [] => ':' :: subQuoteBareValuesF fuel rest
    else c :: subQuoteBareValuesF fuel rest

/-- `re.sub(r',\s*([}\]])', r'\1', s)` — strategy 2's comma strip: unlike
strategy 1's, the whitespace between the comma and the bracket is dropped. -/
def subTrailingCommasAggrF : Nat → List Char → List Char
  | 0, l => l
  | _, [] => []
  | fuel+1, c :: rest =>
    if c = ',' then
      let r2 := rest.dropWhile pySpace
      match r2 with
      | b :: r3 =>
        if b = '}' || b = ']' then b :: subTrailingCommasAggrF fuel r3
        else ',' :: subTrailingCommasAggrF fuel rest
      | [] => ',' :: subTrailingCommasAggrF fuel rest
    else c :: subTrailingCommasAggrF fuel rest

/-- `re.sub(r'(\d)\s*\n\s*"', r'\1,\n"', s)` — insert a comma after a digit
that is separated from a following quote by whitespace containing a
newline. -/
def subDigitNlQuoteF : Nat → List Char → List Char
  | 0, l => l
  | _, [] => []
  | fuel+1, c :: rest =>
    if asciiDigit c then
      let ws := rest.takeWhile pySpace
      let r2 := rest.dropWhile pySpace
      match r2 with
      | '"' :: r3 =>
        if ws.contains '\n' then c :: chars ",\n\"" ++ subDigitNlQuoteF fuel r3
        else c :: subDigitNlQuoteF fuel rest
      | _ => c :: subDigitNlQuoteF fuel rest
    else c :: subDigitNlQuoteF fuel rest

/-- `re.sub(r'}\s*\n\s*"', r'},\n"', s)` — likewise after a closing brace. -/
def subBraceNlQuoteF : Nat → List Char → List Char
  | 0, l => l
  | _, [] => []
  | fuel+1, c :: rest =>
    if c = '}' then
      let ws := rest.takeWhile pySpace
      let r2 := rest.dropWhile pySpace
      match r2 with
      | '"' :: r3 =>
        if ws.contains '\n' then '}' :: chars ",\n\"" ++ subBraceNlQuoteF fuel r3
        else '}' :: subBraceNlQuoteF fuel rest
      | _ => '}' :: subBraceNlQuoteF fuel rest
    else c :: subBraceNlQuoteF fuel rest

/-- `_aggressive_json_fix` (repair strategy 2). -/
def aggressiveJsonFix (s : List Char) : List Char :=
  let s1 := subLineCommentsF s.length s
  let s2 := subBlockCommentsF s1.length s1
  let s3 := subQuoteBareValuesF s2.length s2
  let s4 := s3.map (fun c => if c = '\'' then '"' else c)
  let s5 := subTrailingCommasAggrF s4.length s4
  let s6 := subMissingCommaStrF s5.length s5
  let s7 := subDigitNlQuoteF s6.length s6
  subBraceNlQuoteF s7.length s7

/-! ### `_extract_json_fields_manually`'s findall patterns -/

def isQuoteC (c : Char) : Bool := c = '"' || c = '\''

/-- Generic `re.findall` scan over an anchored matcher that consumes at
least one character on success. -/
def findallWith (tryAt : List Char → Option (α × List Char)) :
    Nat → List Char → List α
  | 0, _ => []
  | _, [] => []
  | fuel+1, c :: cs =>
    match tryAt (c :: cs) with
    | some (a, r) => a :: findallWith tryAt fuel r
    | none => findallWith tryAt fuel cs

/-- The shared key part `["\']?(\w+)["\']?\s*:\s*` of the manual-extraction
patterns: optional quote, word run, optional quote, colon with surrounding
whitespace.  Returns the key and the rest after the colon's whitespace. -/
def tryKeyColon (l : List Char) : Option (List Char × List Char) :=
  let l1 := match l with
    | c :: r => if isQuoteC c then r else l
    | [] => l
  let run := l1.takeWhile wordChar
  if run.isEmpty then none
  else
    let l2 := l1.dropWhile wordChar
    let l3 := match l2 with
      | c :: r => if isQuoteC c then r else l2
      | [] => l2
    match l3.dropWhile pySpace with
    | ':' :: l4 => some (run, l4.dropWhile pySpace)
    | _ => none

/-- `r'["\']?(\w+)["\']?\s*:\s*["\']([^"\']*)["\']'` anchored at `l`. -/
def tryStringFieldAt (l : List Char) : Option ((List Char × List Char) × List Char) :=
  match tryKeyColon l with
  | none => none
  | some (key, r1) =>
    match r1 with
    | q :: r2 =>
      if isQuoteC q then
        let v := r2.takeWhile (fun c => !isQuoteC c)
        match r2.dropWhile (fun c => !isQuoteC c) with
        | _ :: r3 => some ((key, v), r3)
        | [] => none
      else none
    | [] => none

/-- `r'["\']?(\w+)["\']?\s*:\s*(\d+(?:\.\d+)?)'` anchored at `l`.  The
value group is returned verbatim; the caller applies
`int(v) if '.' not in v else float(v)`. -/
def tryNumericFieldAt (l : List Char) : Option ((List Char × List Char) × List Char) :=
  match tryKeyColon l with
  | none => none
  | some (key, r1) =>
    let ds := r1.takeWhile asciiDigit
    if ds.isEmpty then none
    else
      let r2 := r1.dropWhile asciiDigit
      match r2 with
      | '.' :: r3 =>
        let fs := r3.takeWhile asciiDigit
        if fs.isEmpty then some ((key, ds), r2)
        else some ((key, ds ++ '.' :: fs), r3.dropWhile asciiDigit)
      | _ => some ((key, ds), r2)

/-- `r'["\']?(\w+)["\']?\s*:\s*(true|false)'` with re.IGNORECASE. -/
def tryBoolFieldAt (l : List Char) : Option ((List Char × List Char) × List Char) :=
  match tryKeyColon l with
  | none => none
  | some (key, r1) =>
    if lowerL (r1.take 4) = chars "true" then some ((key, r1.take 4), r1.drop 4)
    else if lowerL (r1.take 5) = chars "false" then some ((key, r1.take 5), r1.drop 5)
    else none

/-- `r'["\']?(\w+)["\']?\s*:\s*\[([^\]]*)\]'` anchored at `l`. -/
def tryArrayFieldAt (l : List Char) : Option ((List Char × List Char) × List Char) :=
  match tryKeyColon l with
  | none => none
  | some (key, r1) =>
    match r1 with
    | '[' :: r2 =>
      let body := r2.takeWhile (fun c => c ≠ ']')
      (match r2.dropWhile (fun c => c ≠ ']') with
       | ']' :: r3 => some ((key, body), r3)
       | _ => none)
    | _ => none

/-- `_extract_json_fields_manually`: four independent regex scans folded
into one dict; `None` when nothing is recognised. -/
def extractJsonFieldsManually (s : List Char) : Option Rec :=
  let stringMatches := findallWith tryStringFieldAt s.length s
  let numericMatches := findallWith tryNumericFieldAt s.length s
  let boolMatches := findallWith tryBoolFieldAt s.length s
  let arrayMatches := findallWith tryArrayFieldAt s.length s
  let r1 := stringMatches.foldl (fun acc p => dictInsert p.1 (.str p.2) acc) []
  let r2 := numericMatches.foldl
    (fun acc p =>
      dictInsert p.1
        (if p.2.contains '.' then Value.float p.2
         else Value.int (p.2.foldl (fun n d => n * 10 + ((d.toNat : Int) - 48)) 0)) acc) r1
  let r3 := boolMatches.foldl
    (fun acc p => dictInsert p.1 (.bool (lowerL p.2 = chars "true")) acc) r2
  let r4 := arrayMatches.foldl
    (fun acc p =>
      let items := (splitOnC ',' p.2).map
        (fun it => stripP isQuoteC (pyStrip it))
      dictInsert p.1 (.list ((items.filter (fun it => !it.isEmpty)).map .str)) acc) r3
  if r4.isEmpty then none else some r4

/-- `re.sub(r'\s+', ' ', s)`: collapse each whitespace run to one space. -/
def collapseWsF : Nat → List Char → List Char
  | 0, l => l
  | _, [] => []
  | fuel+1, c :: rest =>
    if pySpace c then ' ' :: collapseWsF fuel (rest.dropWhile pySpace)
    else c :: collapseWsF fuel rest

/-- `r'["\']?(\w+)["\']?\s*:\s*["\']?([^,"\']*)["\']?'` anchored at `l`
(used by `_extract_readable_content`; its trailing parts are optional so it
cannot fail after the key). -/
def tryReadablePairAt (l : List Char) : Option ((List Char × List Char) × List Char) :=
  match tryKeyColon l with
  | none => none
  | some (key, r1) =>
    let r2 := match r1 with
      | c :: r => if isQuoteC c then r else r1
      | [] => r1
    let v := r2.takeWhile (fun c => c ≠ ',' && !isQuoteC c)
    let r3 := r2.dropWhile (fun c => c ≠ ',' && !isQuoteC c)
    let r4 := match r3 with
      | c :: r => if isQuoteC c then r else r3
      | [] => r3
    some ((key, v), r4)

/-- Python `'; '.join(...)` over `f"{key}: {value}"` parts. -/
def joinPairs (ps : List (List Char × List Char)) : List Char :=
  (ps.map (fun p => p.1 ++ chars ": " ++ p.2)).intersperse (chars "; ") |>.flatten

/-- `_extract_readable_content`. -/
def extractReadableContent (s : List Char) : List Char :=
  let content := stripP (fun c => c = '{' || c = '}') s
  let content := collapseWsF content.length content
  let readableParts := findallWith tryReadablePairAt content.length content
  if !readableParts.isEmpty then
    joinPairs (readableParts.map (fun p => (p.1, pyStrip p.2)))
  else if content.length > 100 then content.take 100 ++ chars "..."
  else content

/-! ### Repair cascade (`_attempt_json_fixes`) and section parsers -/

/-- The last-resort structured representation at the end of
`_attempt_json_fixes`.  In the source it is reachable only when
`_extract_json_fields_manually` raises, which it cannot (all its
conversions are guarded), so the cascade below never produces it:
strategy 3's `return` hands back the manual-extraction result — including
`None` — directly. -/
def lastResortRecord (s : List Char) : Rec :=
  [ (chars "raw_content", .str (pyStrip s)),
    (chars "parsing_error", .str (chars "Could not parse as valid JSON")),
    (chars "extracted_text", .str (extractReadableContent s)) ]

/-- `_attempt_json_fixes`: strategy 1 (minimal fixes), then strategy 2
(aggressive fixes), then strategy 3 (manual field extraction).  The
candidates handed in always begin with `{`, so a successful `json.loads`
yields a dict; a non-dict success is impossible (kept as `none` here). -/
def attemptJsonFixes (s : List Char) : Option Rec :=
  match jsonLoads (fixMalformedJson s) with
  | .ok (.obj o) => some o
  | .ok _ => none
  | .error _ =>
    match jsonLoads (aggressiveJsonFix s) with
    | .ok (.obj o) => some o
    | .ok _ => none
    | .error _ => extractJsonFieldsManually s

/-- `_parse_metadata`: `key: value` lines (first colon), comment and `---`
lines skipped; repeated keys overwrite. -/
def parseMetadata (content : List Char) : List Rec :=
  let lines := splitOnC '\n' content
  let metadata := lines.foldl
    (fun md line =>
      if containsChar ':' line && !startsWithL (chars "#") (pyStrip line)
          && !startsWithL (chars "---") (pyStrip line) then
        match splitFirst ':' line with
        | some (k, v) => dictInsert (pyStrip k) (.str (pyStrip v)) md
        | none => md
      else md)
    [(chars "data_type", Value.str (chars "metadata"))]
  if metadata.length > 1 then [metadata] else []

/-- `_parse_json_section`: every `json_object`-pattern candidate is parsed
directly; a dict result is tagged, a list result is flattened to its dict
elements tagged `from_array`, and a parse failure goes through the repair
cascade (tagged `was_malformed`).  An empty repaired dict is falsy in
Python and is dropped. -/
def parseJsonSection (content : List Char) : List Rec :=
  (findallJsonObjects content).flatMap (fun jsonStr =>
    match jsonLoads jsonStr with
    | .ok (.obj o) =>
      [dictInsert (chars "was_malformed") (.bool false)
        (dictInsert (chars "data_type") (.str (chars "json_object")) o)]
    | .ok (.list items) =>
      items.filterMap (fun it =>
        match it with
        | .obj o =>
          some (dictInsert (chars "from_array") (.bool true)
            (dictInsert (chars "was_malformed") (.bool false)
              (dictInsert (chars "data_type") (.str (chars "json_object")) o)))
        | _ => none)
    | .ok _ => []
    | .error _ =>
      match attemptJsonFixes jsonStr with
      | some o =>
        if o.isEmpty then []
        else [dictInsert (chars "was_malformed") (.bool true)
          (dictInsert (chars "data_type") (.str (chars "json_object")) o)]
      | none => [])

/-- `_parse_malformed_json`: every candidate goes straight through the
repair cascade. -/
def parseMalformedJson (content : List Char) : List Rec :=
  (findallJsonObjects content).flatMap (fun jsonStr =>
    match attemptJsonFixes jsonStr with
    | some o =>
      if o.isEmpty then []
      else [dictInsert (chars "was_malformed") (.bool true)
        (dictInsert (chars "data_type") (.str (chars "json_object")) o)]
    | none => [])

/-! ### HTML patterns (`_parse_html_simple`; `HAS_BS4 = False` branch) -/

/-- `<TAG[^>]*>` anchored at `l` (case-insensitive): returns the rest after
the closing `>`. -/
def tryTagOpenAt (tag l : List Char) : Option (List Char) :=
  if (lowerL ('<' :: tag)).isPrefixOf (lowerL l) then
    let r := l.drop (tag.length + 1)
    match r.dropWhile (fun c => c ≠ '>') with
    | '>' :: r2 => some r2
    | _ => none
  else none

/-- `<TAG[^>]*>(.*?)</TAG>` anchored at `l`, case-insensitively.  Without
re.DOTALL the lazy `.*?` cannot cross a newline, so the capture must reach
the first closing tag newline-free. -/
def tryTagElemAt (tag : List Char) (dotall : Bool) (l : List Char) :
    Option (List Char × List Char) :=
  match tryTagOpenAt tag l with
  | none => none
  | some r2 =>
    let closing := '<' :: '/' :: (tag ++ ['>'])
    match findSubCI closing r2 with
    | none => none
    | some i =>
      let cap := r2.take i
      if !dotall && cap.contains '\n' then none
      else some (cap, r2.drop (i + closing.length))

/-- `re.sub(r'<[^>]+>', '', cell)`: remove tag-shaped spans. -/
def stripHtmlTagsF : Nat → List Char → List Char
  | 0, l => l
  | _, [] => []
  | fuel+1, c :: rest =>
    if c = '<' then
      let run := rest.takeWhile (fun d => d ≠ '>')
      match rest.dropWhile (fun d => d ≠ '>') with
      | '>' :: r2 =>
        if run.isEmpty then '<' :: stripHtmlTagsF fuel rest
        else stripHtmlTagsF fuel r2
      | _ => '<' :: stripHtmlTagsF fuel rest
    else c :: stripHtmlTagsF fuel rest

/-- `_parse_html_simple`: regex table scan — first `<tr>` supplies the
header (`<th>` cells, else `<td>`), later rows are kept only when their
`<td>` count matches the header. -/
def parseHtmlSimple (content : List Char) : List Rec :=
  let rows := findallWith (tryTagElemAt (chars "tr") true) content.length content
  match rows with
  | row0 :: rest =>
    if rest.isEmpty then []
    else
      let ths := findallWith (tryTagElemAt (chars "th") false) row0.length row0
      let headerCells :=
        if ths.isEmpty then findallWith (tryTagElemAt (chars "td") false) row0.length row0
        else ths
      rest.filterMap (fun row =>
        let dataCells := findallWith (tryTagElemAt (chars "td") false) row.length row
        if dataCells.length = headerCells.length then
          some (dictInsert (chars "data_type") (.str (chars "html_table_row"))
            ((headerCells.zip dataCells).foldl
              (fun acc p =>
                dictInsert (pyStrip p.1)
                  (.str (pyStrip (stripHtmlTagsF p.2.length p.2))) acc)
              []))
        else none)
  | [] => []

/-- `_parse_html_section` with no BeautifulSoup: delegates to the simple
regex fallback. -/
def parseHtmlSection (content : List Char) : List Rec :=
  parseHtmlSimple content

/-- The `csv_lines` filter of `_parse_csv_section`: comma-bearing lines of
the stripped content, skipping `#` comments and `---` marker lines. -/
def csvFilteredLines (content : List Char) : List (List Char) :=
  (splitOnC '\n' (pyStrip content)).filter
    (fun l => containsChar ',' l && !startsWithL (chars "#") (pyStrip l)
      && !startsWithL (chars "---") (pyStrip l))

/-- `_parse_csv_section` (manual branch, `HAS_PANDAS = False`): first
qualifying line is the header; later lines become `csv_row` Records only
when their comma-field count equals the header's, otherwise they are
silently skipped.  Nothing in this branch can raise, so the
`malformed_csv` fallback inside its `except` clause is unreachable. -/
def parseCsvSection (content : List Char) : List Rec :=
  match csvFilteredLines content with
  | h :: rest =>
    if rest.isEmpty then []
    else
      let headers := (splitOnC ',' h).map pyStrip
      rest.filterMap (fun line =>
        let values := (splitOnC ',' line).map pyStrip
        if values.length = headers.length then
          some (dictInsert (chars "data_type") (.str (chars "csv_row"))
            ((headers.zip values).foldl
              (fun acc p => dictInsert p.1 (.str p.2) acc) []))
        else none)
  | [] => []

/-- Decimal digits of a natural number (for Python f-string interpolation). -/
def natChars (n : Nat) : List Char := (toString n).data

/-- `_parse_key_value`: `key: value` lines (first colon, repeated keys
overwrite); lines without a colon but with semicolons become
`tag_i` fields. -/
def parseKeyValue (content : List Char) : List Rec :=
  let lines := splitOnC '\n' content
  let result := lines.foldl
    (fun res line =>
      if containsChar ':' line && !startsWithL (chars "#") (pyStrip line)
          && !startsWithL (chars "---") (pyStrip line) then
        match splitFirst ':' line with
        | some (k, v) => dictInsert (pyStrip k) (.str (pyStrip v)) res
        | none => res
      else if containsChar ';' line && !startsWithL (chars "#") (pyStrip line) then
        (splitOnC ';' line).enum.foldl
          (fun r p => dictInsert (chars "tag_" ++ natChars p.1) (.str (pyStrip p.2)) r)
          res
      else res)
    [(chars "data_type", Value.str (chars "key_value_pairs"))]
  if result.length > 1 then [result] else []

/-- The JSON-LD script pattern
`<script[^>]*type="application/ld\+json"[^>]*>(.*?)</script>` (re.DOTALL),
anchored at `l`: the type attribute must occur in the non-`>` run after
`<script`, and the capture extends lazily to the first `</script>`. -/
def tryJsonLdAt (l : List Char) : Option (List Char × List Char) :=
  if (chars "<script").isPrefixOf l then
    let r := l.drop 7
    let attrs := r.takeWhile (fun c => c ≠ '>')
    if containsSub (chars "type=\"application/ld+json\"") attrs then
      match r.dropWhile (fun c => c ≠ '>') with
      | '>' :: r2 =>
        (match findSub (chars "</script>") r2 with
         | some i => some (r2.take i, r2.drop (i + 9))
         | none => none)
      | _ => none
    else none
  else none

/-- The `str(e)` text of the `TypeError` raised by `parsed['data_type'] = …`
when `json.loads` returned a non-dict. -/
def itemAssignTypeError : Value → List Char
  | .list _ => chars "list indices must be integers or slices, not str"
  | .str _ => chars "'str' object does not support item assignment"
  | .int _ => chars "'int' object does not support item assignment"
  | .float _ => chars "'float' object does not support item assignment"
  | .bool _ => chars "'bool' object does not support item assignment"
  | .null => chars "'NoneType' object does not support item assignment"
  | .obj _ => chars ""

/-- `_parse_json_ld`: each script payload is `json.loads`-parsed; a
`JSONDecodeError` is absorbed into a `malformed_json_ld` Record, but the
unguarded `parsed['data_type'] = 'json_ld'` raises on a non-dict payload,
aborting the whole section (earlier Records are discarded). -/
def parseJsonLdAux : List (List Char) → List Rec → Except (List Char) (List Rec)
  | [], acc => .ok acc
  | m :: ms, acc =>
    match jsonLoads (pyStrip m) with
    | .ok (.obj o) =>
      parseJsonLdAux ms
        (acc ++ [dictInsert (chars "data_type") (.str (chars "json_ld")) o])
    | .ok v => .error (itemAssignTypeError v)
    | .error e =>
      parseJsonLdAux ms
        (acc ++ [[(chars "data_type", Value.str (chars "malformed_json_ld")),
                  (chars "raw_content", Value.str (pyStrip m)),
                  (chars "error", Value.str e)]])

def parseJsonLd (content : List Char) : Except (List Char) (List Rec) :=
  parseJsonLdAux (findallWith tryJsonLdAt content.length content) []

/-- `_parse_repeated_fields`: like the metadata parser, but a repeated key
turns its value into a growing list. -/
def parseRepeatedFields (content : List Char) : List Rec :=
  let lines := splitOnC '\n' content
  let fields := lines.foldl
    (fun fs line =>
      if containsChar ':' line && !startsWithL (chars "#") (pyStrip line)
          && !startsWithL (chars "---") (pyStrip line) then
        match splitFirst ':' line with
        | some (k, v) =>
          let key := pyStrip k
          let value := pyStrip v
          (match recLookup fs key with
           | some (.list items) => dictInsert key (.list (items ++ [.str value])) fs
           | some old => dictInsert key (.list [old, .str value]) fs
           | none => dictInsert key (.str value) fs)
        | none => fs
      else fs)
    []
  if fields.isEmpty then []
  else [dictInsert (chars "data_type") (.str (chars "repeated_fields")) fields]

/-- Python `str.isdigit()` (ASCII model). -/
def pyIsDigit (l : List Char) : Bool := !l.isEmpty && l.all asciiDigit

/-- Whether Python `float(v)` succeeds (ASCII model of the float literal
grammar: optional surrounding whitespace and sign, `inf`/`infinity`/`nan`,
or a decimal with optional fraction and exponent; CPython's underscore
separators are not modelled). -/
def pyFloatAccepts (v : List Char) : Bool :=
  let s := pyStrip v
  let s1 := match s with
    | c :: r => if c = '+' || c = '-' then r else s
    | [] => s
  let ls := lowerL s1
  if ls = chars "inf" || ls = chars "infinity" || ls = chars "nan" then true
  else
    let intd := s1.takeWhile asciiDigit
    let r1 := s1.dropWhile asciiDigit
    let afterPoint : Option (List Char) :=
      match r1 with
      | '.' :: r2 =>
        let frac := r2.takeWhile asciiDigit
        if intd.isEmpty && frac.isEmpty then none
        else some (r2.dropWhile asciiDigit)
      | _ => if intd.isEmpty then none else some r1
    match afterPoint with
    | none => false
    | some r3 =>
      match r3 with
      | [] => true
      | e :: r4 =>
        if e = 'e' || e = 'E' then
          let r5 := match r4 with
            | c :: r6 => if c = '+' || c = '-' then r6 else r4
            | [] => r4
          !r5.isEmpty && r5.all asciiDigit
        else false

/-- `_is_float`: `float(value)` succeeds and the text contains a dot. -/
def isFloatPy (v : List Char) : Bool := pyFloatAccepts v && v.contains '.'

/-- Python `int(v)` for an `isdigit()` string. -/
def digitsToInt (ds : List Char) : Int :=
  ds.foldl (fun n d => n * 10 + ((d.toNat : Int) - 48)) 0

/-- `_parse_ambiguous_types`: per `key: value` line, coerce in order —
boolean literal, `N/A` sentinel, pure-digit integer, float — keeping the
original text alongside, with a plain-string fallback (which keeps no
original). -/
def parseAmbiguousTypes (content : List Char) : List Rec :=
  let lines := splitOnC '\n' content
  let result := lines.foldl
    (fun res line =>
      if containsChar ':' line && !startsWithL (chars "#") (pyStrip line)
          && !startsWithL (chars "---") (pyStrip line) then
        match splitFirst ':' line with
        | some (k, v) =>
          let key := pyStrip k
          let value := stripP (fun c => c = '"') (pyStrip v)
          if lowerL value = chars "true" || lowerL value = chars "false" then
            dictInsert (key ++ chars "_original") (.str value)
              (dictInsert key (.bool (lowerL value = chars "true")) res)
          else if value = chars "N/A" then
            dictInsert (key ++ chars "_original") (.str value)
              (dictInsert key .null res)
          else if pyIsDigit value then
            dictInsert (key ++ chars "_original") (.str value)
              (dictInsert key (.int (digitsToInt value)) res)
          else if isFloatPy value then
            dictInsert (key ++ chars "_original") (.str value)
              (dictInsert key (.float value) res)
          else dictInsert key (.str value) res
        | none => res
      else res)
    [(chars "data_type", Value.str (chars "ambiguous_types"))]
  if result.length > 1 then [result] else []

/-- `_parse_variant_section` (`HAS_YAML = HAS_PANDAS = False`): JSON-object
candidates tagged `schema_variant`/`v2` (parse failures skipped), then a
manual CSV pass over comma-bearing non-comment lines tagged
`variant_csv_row`.  The yaml branch is skipped without the library.
JSON candidates begin with `{`, so a successful parse is always a dict. -/
def parseVariantSection (content : List Char) : List Rec :=
  let jsonRecs := (findallJsonObjects content).flatMap (fun jsonStr =>
    match jsonLoads jsonStr with
    | .ok (.obj o) =>
      [dictInsert (chars "version") (.str (chars "v2"))
        (dictInsert (chars "data_type") (.str (chars "schema_variant")) o)]
    | _ => [])
  let csvLines := (splitOnC '\n' content).filter
    (fun l => containsChar ',' l && !startsWithL (chars "#") (pyStrip l))
  let csvRecs :=
    match csvLines with
    | h :: rest =>
      if rest.isEmpty then []
      else
        let headers := splitOnC ',' h
        rest.filterMap (fun line =>
          let values := splitOnC ',' line
          if values.length = headers.length then
            some (dictInsert (chars "data_type") (.str (chars "variant_csv_row"))
              ((headers.zip values).foldl
                (fun acc p => dictInsert (pyStrip p.1) (.str (pyStrip p.2)) acc) []))
          else none)
    | [] => []
  jsonRecs ++ csvRecs

/-! ### Free-text extraction patterns (`price_patterns`, `date_patterns`,
quoted strings, phones, promo codes, JS object literals) -/

/-- `\$?\d+\.?\d*\s*USD` (re.IGNORECASE) anchored at `l`;
returns (match, rest). -/
def tryPrice1At (l : List Char) : Option (List Char × List Char) :=
  let (dollar, l0) : List Char × List Char :=
    match l with
    | '$' :: r => (['$'], r)
    | _ => ([], l)
  let ds := l0.takeWhile asciiDigit
  if ds.isEmpty then none
  else
    let r1 := l0.dropWhile asciiDigit
    let (dotfrac, r2) : List Char × List Char :=
      match r1 with
      | '.' :: r => ('.' :: r.takeWhile asciiDigit, r.dropWhile asciiDigit)
      | _ => ([], r1)
    let ws := r2.takeWhile pySpace
    let r3 := r2.dropWhile pySpace
    if lowerL (r3.take 3) = chars "usd" then
      some (dollar ++ ds ++ dotfrac ++ ws ++ r3.take 3, r3.drop 3)
    else none

/-- `\$\d+\.?\d*` anchored at `l`. -/
def tryPrice2At (l : List Char) : Option (List Char × List Char) :=
  match l with
  | '$' :: r =>
    let ds := r.takeWhile asciiDigit
    if ds.isEmpty then none
    else
      let r1 := r.dropWhile asciiDigit
      match r1 with
      | '.' :: r2 =>
        some ('$' :: ds ++ '.' :: r2.takeWhile asciiDigit, r2.dropWhile asciiDigit)
      | _ => some ('$' :: ds, r1)
  | _ => none

/-- `\d+[.,]\d+` anchored at `l`. -/
def tryPrice3At (l : List Char) : Option (List Char × List Char) :=
  let ds := l.takeWhile asciiDigit
  if ds.isEmpty then none
  else
    match l.dropWhile asciiDigit with
    | c :: r =>
      if c = '.' || c = ',' then
        let ds2 := r.takeWhile asciiDigit
        if ds2.isEmpty then none
        else some (ds ++ c :: ds2, r.dropWhile asciiDigit)
      else none
    | [] => none

/-- `price[:\s]+[\$]?\d+\.?\d*` (re.IGNORECASE) anchored at `l`. -/
def tryPrice4At (l : List Char) : Option (List Char × List Char) :=
  if lowerL (l.take 5) = chars "price" then
    let r := l.drop 5
    let seps := r.takeWhile (fun c => c = ':' || pySpace c)
    if seps.isEmpty then none
    else
      let r1 := r.dropWhile (fun c => c = ':' || pySpace c)
      let (dollar, r2) : List Char × List Char :=
        match r1 with
        | '$' :: r' => (['$'], r')
        | _ => ([], r1)
      let ds := r2.takeWhile asciiDigit
      if ds.isEmpty then none
      else
        let r3 := r2.dropWhile asciiDigit
        match r3 with
        | '.' :: r4 =>
          some (l.take 5 ++ seps ++ dollar ++ ds ++ '.' :: r4.takeWhile asciiDigit,
            r4.dropWhile asciiDigit)
        | _ => some (l.take 5 ++ seps ++ dollar ++ ds, r3)
  else none

/-- Exactly `n` ASCII digits at the head of `l`. -/
def takeDigits (n : Nat) (l : List Char) : Option (List Char × List Char) :=
  let ds := l.take n
  if ds.length = n && ds.all asciiDigit then some (ds, l.drop n) else none

/-- `\d{4}SEP\d{2}SEP\d{2}` anchored at `l` (date patterns 1 and 5). -/
def tryDate4x2x2At (sep : Char) (l : List Char) : Option (List Char × List Char) :=
  match takeDigits 4 l with
  | some (a, r1) =>
    (match r1 with
     | c :: r2 =>
       if c = sep then
         match takeDigits 2 r2 with
         | some (b, r3) =>
           (match r3 with
            | d :: r4 =>
              if d = sep then
                match takeDigits 2 r4 with
                | some (e, r5) => some (a ++ c :: b ++ d :: e, r5)
                | none => none
              else none
            | [] => none)
         | none => none
       else none
     | [] => none)
  | none => none

/-- `\d{2}SEP\d{2}SEP\d{4}` anchored at `l` (date patterns 2 and 3). -/
def tryDate2x2x4At (sep : Char) (l : List Char) : Option (List Char × List Char) :=
  match takeDigits 2 l with
  | some (a, r1) =>
    (match r1 with
     | c :: r2 =>
       if c = sep then
         match takeDigits 2 r2 with
         | some (b, r3) =>
           (match r3 with
            | d :: r4 =>
              if d = sep then
                match takeDigits 4 r4 with
                | some (e, r5) => some (a ++ c :: b ++ d :: e, r5)
                | none => none
              else none
            | [] => none)
         | none => none
       else none
     | [] => none)
  | none => none

/-- `\w+\s+\d{1,2},\s+\d{4}` anchored at `l` (date pattern 4: the word-run
and whitespace-run maximal munches are forced, and the day needs one or two
digits directly followed by the comma). -/
def tryDateWordAt (l : List Char) : Option (List Char × List Char) :=
  let w := l.takeWhile wordChar
  if w.isEmpty then none
  else
    let r1 := l.dropWhile wordChar
    let ws := r1.takeWhile pySpace
    if ws.isEmpty then none
    else
      let r2 := r1.dropWhile pySpace
      let day := r2.takeWhile asciiDigit
      if day.isEmpty || day.length > 2 then none
      else
        match r2.drop day.length with
        | ',' :: r3 =>
          let ws2 := r3.takeWhile pySpace
          if ws2.isEmpty then none
          else
            match takeDigits 4 (r3.dropWhile pySpace) with
            | some (y, r4) => some (w ++ ws ++ day ++ ',' :: ws2 ++ y, r4)
            | none => none
        | _ => none

/-- `"([^"]*)"` anchored at `l`: the captured group. -/
def tryQuotedAt (l : List Char) : Option (List Char × List Char) :=
  match l with
  | '"' :: r =>
    let body := r.takeWhile (fun c => c ≠ '"')
    (match r.dropWhile (fun c => c ≠ '"') with
     | '"' :: r2 => some (body, r2)
     | _ => none)
  | _ => none

/-- `var\s+\w+\s*=\s*(\{[^}]+\})` anchored at `l`: the captured brace
group (which may not contain a closing brace). -/
def tryJsObjAt (l : List Char) : Option (List Char × List Char) :=
  if (chars "var").isPrefixOf l then
    let r := l.drop 3
    let ws := r.takeWhile pySpace
    if ws.isEmpty then none
    else
      let r1 := r.dropWhile pySpace
      let name := r1.takeWhile wordChar
      if name.isEmpty then none
      else
        match (r1.dropWhile wordChar).dropWhile pySpace with
        | '=' :: r2 =>
          (match r2.dropWhile pySpace with
           | '{' :: r3 =>
             let body := r3.takeWhile (fun c => c ≠ '}')
             if body.isEmpty then none
             else
               (match r3.dropWhile (fun c => c ≠ '}') with
                | '}' :: r4 => some ('{' :: body ++ ['}'], r4)
                | _ => none)
           | _ => none)
        | _ => none
  else none

/-- `\(?\d{3}\)?[-.\s]?\d{3}[-.\s]?\d{4}` anchored at `l`. -/
def tryPhoneAt (l : List Char) : Option (List Char × List Char) :=
  let (p1, l0) : List Char × List Char :=
    match l with
    | '(' :: r => (['('], r)
    | _ => ([], l)
  match takeDigits 3 l0 with
  | none => none
  | some (a, r1) =>
    let (p2, r2) : List Char × List Char :=
      match r1 with
      | ')' :: r => ([')'], r)
      | _ => ([], r1)
    let (s1, r3) : List Char × List Char :=
      match r2 with
      | c :: r => if c = '-' || c = '.' || pySpace c then ([c], r) else ([], r2)
      | [] => ([], r2)
    match takeDigits 3 r3 with
    | none => none
    | some (b, r4) =>
      let (s2, r5) : List Char × List Char :=
        match r4 with
        | c :: r => if c = '-' || c = '.' || pySpace c then ([c], r) else ([], r4)
        | [] => ([], r4)
      match takeDigits 4 r5 with
      | none => none
      | some (c, r6) => some (p1 ++ a ++ p2 ++ s1 ++ b ++ s2 ++ c, r6)

/-- `promo code:\s*([A-Z0-9]+)` (re.IGNORECASE) anchored at `l`: the
captured code (with IGNORECASE, `[A-Z0-9]` also matches lowercase). -/
def tryPromoAt (l : List Char) : Option (List Char × List Char) :=
  if lowerL (l.take 11) = chars "promo code:" then
    let r := (l.drop 11).dropWhile pySpace
    let code := r.takeWhile (fun c => asciiAlpha c || asciiDigit c)
    if code.isEmpty then none
    else some (code, r.drop code.length)
  else none

/-- `_parse_raw_text`: prices, dates and quoted strings (each key present
only when matches exist) plus word/char/line counts. -/
def parseRawText (content : List Char) : List Rec :=
  let prices :=
    findallWith tryPrice1At content.length content
    ++ findallWith tryPrice2At content.length content
    ++ findallWith tryPrice3At content.length content
    ++ findallWith tryPrice4At content.length content
  let dates :=
    findallWith (tryDate4x2x2At '-') content.length content
    ++ findallWith (tryDate2x2x4At '/') content.length content
    ++ findallWith (tryDate2x2x4At '-') content.length content
    ++ findallWith tryDateWordAt content.length content
    ++ findallWith (tryDate4x2x2At '/') content.length content
  let quoted := findallWith tryQuotedAt content.length content
  let r0 : Rec := [(chars "data_type", Value.str (chars "raw_text_analysis"))]
  let r1 := if prices.isEmpty then r0
    else dictInsert (chars "extracted_prices") (.list (prices.map .str)) r0
  let r2 := if dates.isEmpty then r1
    else dictInsert (chars "extracted_dates") (.list (dates.map .str)) r1
  let r3 := if quoted.isEmpty then r2
    else dictInsert (chars "quoted_strings") (.list (quoted.map .str)) r2
  let r4 := dictInsert (chars "word_count") (.int (splitWs content).length) r3
  let r5 := dictInsert (chars "char_count") (.int content.length) r4
  [dictInsert (chars "line_count") (.int (splitOnC '\n' content).length) r5]

/-- `_parse_free_text`: JavaScript object literals (single quotes swapped
for double, then `json.loads`, any failure — including the impossible
non-dict case — absorbed by the bare `except` into a `malformed_js_object`
Record), then phone numbers and promo codes. -/
def parseFreeText (content : List Char) : List Rec :=
  let jsRecs := (findallWith tryJsObjAt content.length content).map (fun jsObj =>
    match jsonLoads (jsObj.map (fun c => if c = '\'' then '"' else c)) with
    | .ok (.obj o) =>
      dictInsert (chars "data_type") (.str (chars "javascript_object")) o
    | _ =>
      [(chars "data_type", Value.str (chars "malformed_js_object")),
       (chars "raw_content", Value.str jsObj)])
  let phones := findallWith tryPhoneAt content.length content
  let phoneRecs := if phones.isEmpty then ([] : List Rec)
    else [[(chars "data_type", Value.str (chars "contact_info")),
           (chars "phone_numbers", Value.list (phones.map .str))]]
  let promos := findallWith tryPromoAt content.length content
  let promoRecs := if promos.isEmpty then ([] : List Rec)
    else [[(chars "data_type", Value.str (chars "promotional_info")),
           (chars "promo_codes", Value.list (promos.map .str))]]
  jsRecs ++ phoneRecs ++ promoRecs

/-- Python `sub in line.lower()`. -/
def containsCI (sub line : List Char) : Bool := containsSub sub (lowerL line)

/-- `line.split(':', 1)[1].strip() if ':' in line else line`. -/
def afterColonOrSelf (line : List Char) : List Char :=
  match splitFirst ':' line with
  | some (_, v) => pyStrip v
  | none => line

/-- `_parse_ocr_footer`: keyword classification per stripped line; the
`l0cation`/`location` branch also flags `ocr_errors_detected`. -/
def parseOcrFooter (content : List Char) : List Rec :=
  let lines := (splitOnC '\n' (pyStrip content)).map pyStrip
  let result := lines.foldl
    (fun res line =>
      if containsCI (chars "page") line then
        dictInsert (chars "page_info") (.str line) res
      else if containsCI (chars "document title") line then
        dictInsert (chars "document_title") (.str (afterColonOrSelf line)) res
      else if containsCI (chars "l0cation") line || containsCI (chars "location") line then
        dictInsert (chars "ocr_errors_detected") (.bool true)
          (dictInsert (chars "location") (.str (afterColonOrSelf line)) res)
      else if containsCI (chars "total") line then
        dictInsert (chars "total_info") (.str line) res
      else res)
    [(chars "data_type", Value.str (chars "ocr_footer"))]
  if result.length > 1 then [result] else []

/-- `_parse_generic_text` for unknown tags (here: `sql_snippet`). -/
def parseGenericText (content tag : List Char) : List Rec :=
  [[(chars "data_type", Value.str (chars "generic_" ++ tag)),
    (chars "content", Value.str (pyStrip content)),
    (chars "word_count", Value.int (splitWs content).length),
    (chars "char_count", Value.int content.length)]]

/-! ### Global metadata (`_extract_global_metadata`) -/

/-- Generic `re.search` position scan over an anchored matcher. -/
def searchWith (tryAt : List Char → Option α) : Nat → List Char → Option α
  | 0, _ => none
  | _, [] => none
  | fuel+1, c :: cs =>
    match tryAt (c :: cs) with
    | some a => some a
    | none => searchWith tryAt fuel cs

/-- `scraped_at:\s*([^\n]+)` anchored at `l`: the greedy `\s*` may cross
newlines; when nothing follows the run, it backtracks so that `[^\n]+`
captures the run's last non-newline whitespace character, if any. -/
def tryScrapedAt (l : List Char) : Option (List Char) :=
  if (chars "scraped_at:").isPrefixOf l then
    let rest := l.drop 11
    let w := rest.takeWhile pySpace
    match rest.dropWhile pySpace with
    | c :: r => some (c :: r.takeWhile (fun d => d ≠ '\n'))
    | [] =>
      (match w.reverse.dropWhile (fun d => d = '\n') with
       | c :: _ => some [c]
       | [] => none)
  else none

/-- `source:\s*(https?://[^\n\s]+)` anchored at `l`. -/
def trySourceUrlAt (l : List Char) : Option (List Char) :=
  if (chars "source:").isPrefixOf l then
    let r := (l.drop 7).dropWhile pySpace
    if (chars "https://").isPrefixOf r then
      let body := (r.drop 8).takeWhile (fun c => !pySpace c)
      if body.isEmpty then none else some (chars "https://" ++ body)
    else if (chars "http://").isPrefixOf r then
      let body := (r.drop 7).takeWhile (fun c => !pySpace c)
      if body.isEmpty then none else some (chars "http://" ++ body)
    else none
  else none

/-- `_extract_global_metadata`: filename, processing timestamp (the
explicit `now` argument), size and line counts, plus `scraped_at` /
`source_url` when their patterns match. -/
def extractGlobalMetadata (content filename now : List Char) : Rec :=
  [ (chars "source_file", Value.str filename),
    (chars "processed_at", Value.str now),
    (chars "file_size_chars", Value.int content.length),
    (chars "total_lines", Value.int (splitOnC '\n' content).length) ]
  ++ (match searchWith tryScrapedAt content.length content with
      | some v => [(chars "scraped_at", Value.str (pyStrip v))]
      | none => [])
  ++ (match searchWith trySourceUrlAt content.length content with
      | some v => [(chars "source_url", Value.str (pyStrip v))]
      | none => [])

/-! ### `_parse_section` dispatch and `parse_file` -/

/-- `_parse_section`: tag dispatch.  Only the JSON-LD parser can raise. -/
def parseSection (tag content : List Char) : Except (List Char) (List Rec) :=
  if tag = chars "metadata" then .ok (parseMetadata content)
  else if tag = chars "inline_json" then .ok (parseJsonSection content)
  else if tag = chars "malformed_json" then .ok (parseMalformedJson content)
  else if tag = chars "html_snippet" then .ok (parseHtmlSection content)
  else if tag = chars "csv_section" || tag = chars "inline_csv" then
    .ok (parseCsvSection content)
  else if tag = chars "key_value" then .ok (parseKeyValue content)
  else if tag = chars "json_ld" then parseJsonLd content
  else if tag = chars "repeated_fields" then .ok (parseRepeatedFields content)
  else if tag = chars "ambiguous_types" then .ok (parseAmbiguousTypes content)
  else if tag = chars "variant_v2" then .ok (parseVariantSection content)
  else if tag = chars "raw_paragraph" then .ok (parseRawText content)
  else if tag = chars "free_text" then .ok (parseFreeText content)
  else if tag = chars "ocr_footer" then .ok (parseOcrFooter content)
  else .ok (parseGenericText content tag)

/-- The fallback Record appended by `parse_file`'s `except` clause: the
section's own tag, its raw content truncated to 500 characters, the error
text and the filename. -/
def fallbackRecord (tag sec e filename : List Char) : Rec :=
  [ (chars "section_type", Value.str tag),
    (chars "raw_content", Value.str (sec.take 500)),
    (chars "parse_error", Value.str e),
    (chars "source_file", Value.str filename) ]

/-- One iteration of `parse_file`'s section loop: the parser's Records, or
exactly one fallback Record when it raised. -/
def sectionContrib (filename : List Char) (p : List Char × List Char) : List Rec :=
  match parseSection p.1 p.2 with
  | .ok rs => rs
  | .error e => [fallbackRecord p.1 p.2 e filename]

/-- `parse_file`: split into sections, parse each (absorbing per-section
errors into fallback Records), then update every Record with the global
metadata when any Record was produced. -/
def parse_file (content filename now : List Char) : List Rec :=
  let sections := extractSections content
  let parsedData := (sections.map (sectionContrib filename)).flatten
  if parsedData.isEmpty then parsedData
  else
    let metadata := extractGlobalMetadata content filename now
    parsedData.map (fun r => recUpdate r metadata)

/-! ### Schema inference & versioning engine

`src/schema_inference/engine.py` is imported by `main.py`,
`src/etl/pipeline.py` and the tests but is missing from the source tree,
so this component is modelled from the spec (§3, §4.4, §4.5, §6, §7).
The deterministic content hash is modelled by its preimage — the sorted
(field, type, bucketed-confidence) triples themselves — which is faithful
to "hash is a pure function of FieldSchema content" under the spec's own
assumption that a collision between distinct content is a fatal internal
error.  Sample values do not enter the hash and are omitted from the
modelled FieldSchema. -/

/-- Modelled from the spec: the inferred-type enum of §3. -/
inductive DataType where
  | string | integer | float | boolean | date | null | object | array
deriving DecidableEq

/-- Modelled from the spec: a string is an integer literal
(optional sign, then digits). -/
def intLiteralStr (s : List Char) : Bool :=
  match s with
  | '-' :: r => pyIsDigit r
  | _ => pyIsDigit s

/-- Modelled from the spec: date classification "reusing the free-text
date patterns" — any of the five `date_patterns` occurs in the string. -/
def matchesDateStr (s : List Char) : Bool :=
  (searchWith (tryDate4x2x2At '-') s.length s).isSome
  || (searchWith (tryDate2x2x4At '/') s.length s).isSome
  || (searchWith (tryDate2x2x4At '-') s.length s).isSome
  || (searchWith tryDateWordAt s.length s).isSome
  || (searchWith (tryDate4x2x2At '/') s.length s).isSome

/-- Modelled from the spec: §4.4 value classification — native match
(bool/object/array pass through) → integer literal → float literal
(reusing `_is_float`) → date-pattern match → string fallback. -/
def classifyValue : Value → DataType
  | .bool _ => .boolean
  | .obj _ => .object
  | .list _ => .array
  | .int _ => .integer
  | .float _ => .float
  | .null => .null
  | .str s =>
    if intLiteralStr s then .integer
    else if isFloatPy s then .float
    else if matchesDateStr s then .date
    else .string

/-- Modelled from the spec: §4.4 tie-break specificity order
`integer > float > date > boolean > string > object/array`. -/
def specificityRank : DataType → Nat
  | .integer => 0
  | .float => 1
  | .date => 2
  | .boolean => 3
  | .string => 4
  | .object => 5
  | .array => 6
  | .null => 7

/-- Modelled from the spec: a confidence value in [0,1] kept as the exact
fraction (matching values / non-null values); two calls on identical
batches produce identical fractions, and the hash only consumes the
2-decimal bucket below. -/
structure Confidence where
  num : Nat
  den : Nat
deriving DecidableEq

/-- Modelled from the spec: per-field schema — inferred type, confidence in
[0,1], nullability. -/
structure FieldSchema where
  dtype : DataType
  confidence : Confidence
  nullable : Bool
deriving DecidableEq

/-- Field names over a batch, in first-occurrence order, deduplicated. -/
def dedupKeys : List (List Char) → List (List Char)
  | [] => []
  | k :: ks => k :: (dedupKeys ks).filter (fun k' => k' ≠ k)

/-- Modelled from the spec: every observed value of a field across the
batch, unwrapping repeated-field list values element-wise. -/
def observedValues (records : List Rec) (k : List Char) : List Value :=
  (records.filterMap (fun r => recLookup r k)).flatMap
    (fun v => match v with
      | .list items => items
      | _ => [v])

/-- Modelled from the spec: §4.4 — majority class over non-null observed
values with the specificity tie-break; confidence = matching / non-null;
an all-null field gets type `null` with confidence 0; nullable iff any
observed value is null or the field is absent from some record. -/
def inferFieldSchema (records : List Rec) (k : List Char) : FieldSchema :=
  let values := observedValues records k
  let nonNull := values.filter (fun v => v ≠ .null)
  let nullable := values.any (fun v => v = .null)
    || records.any (fun r => !recHasKey r k)
  if nonNull.isEmpty then
    { dtype := .null, confidence := ⟨0, 1⟩, nullable := nullable }
  else
    let candidates : List DataType :=
      [.integer, .float, .date, .boolean, .string, .object, .array]
    let countOf := fun t => nonNull.countP (fun v => classifyValue v = t)
    let best := candidates.foldl
      (fun acc t => if countOf t > countOf acc then t else acc) .integer
    { dtype := best,
      confidence := ⟨countOf best, nonNull.length⟩,
      nullable := nullable }

/-- Lexicographic-by-codepoint order on field names (for the sorted
candidate schema of §4.5). -/
def keyLe : List Char → List Char → Bool
  | [], _ => true
  | _ :: _, [] => false
  | a :: as', b :: bs =>
    if a.toNat < b.toNat then true
    else if a.toNat > b.toNat then false
    else keyLe as' bs

def insortBy (le : α → α → Bool) (x : α) : List α → List α
  | [] => [x]
  | y :: ys => if le x y then x :: y :: ys else y :: insortBy le x ys

def sortByLe (le : α → α → Bool) (l : List α) : List α :=
  l.foldr (insortBy le) []

/-- Modelled from the spec: §4.5 candidate schema — the sorted
field → FieldSchema map over the batch. -/
def buildSchema (records : List Rec) : List (List Char × FieldSchema) :=
  (sortByLe keyLe (dedupKeys (records.flatMap (fun r => r.map (fun p => p.1))))).map
    (fun k => (k, inferFieldSchema records k))

/-- Modelled from the spec: confidence bucketed to 2 decimals
(the floor of 100·confidence). -/
def bucketConfidence (c : Confidence) : Nat := c.num * 100 / c.den

/-- Modelled from the spec: the deterministic content hash over sorted
(field, type, bucketed-confidence) triples, represented by its preimage. -/
def schemaHash (schema : List (List Char × FieldSchema)) :
    List (List Char × DataType × Nat) :=
  schema.map (fun p => (p.1, (p.2.dtype, bucketConfidence p.2.confidence)))

/-- Modelled from the spec: the Change kinds of §3. -/
inductive Change where
  | field_added : List Char → Change
  | field_removed : List Char → Change
  | type_changed : List Char → DataType → DataType → Change
  | confidence_changed : List Char → Nat → Nat → Change
deriving DecidableEq

def lookupField (schema : List (List Char × FieldSchema)) (k : List Char) :
    Option FieldSchema :=
  match schema.find? (fun p => p.1 = k) with
  | some p => some p.2
  | none => none

/-- Modelled from the spec: §4.5 field-by-field diff — additions, removals,
type changes, bucket-level confidence changes. -/
def diffSchemas (old new : List (List Char × FieldSchema)) : List Change :=
  (new.filterMap (fun p =>
    if (lookupField old p.1).isNone then some (.field_added p.1) else none))
  ++ (old.filterMap (fun p =>
    if (lookupField new p.1).isNone then some (.field_removed p.1) else none))
  ++ (new.filterMap (fun p =>
    match lookupField old p.1 with
    | some ofs =>
      if ofs.dtype ≠ p.2.dtype then some (.type_changed p.1 ofs.dtype p.2.dtype)
      else if bucketConfidence ofs.confidence ≠ bucketConfidence p.2.confidence then
        some (.confidence_changed p.1
          (bucketConfidence ofs.confidence) (bucketConfidence p.2.confidence))
      else none
    | none => none))

/-- Modelled from the spec: an immutable schema snapshot (§3). -/
structure SchemaVersion where
  version : Nat
  timestamp : List Char
  hash : List (List Char × DataType × Nat)
  fields : List (List Char × FieldSchema)
  changes : List Change
  sourceId : List Char
deriving DecidableEq

/-- Modelled from the spec: the SchemaStore — append-only history, a
current-version pointer per source_id, and the global version-id
allocator. -/
structure SchemaStore where
  versions : List SchemaVersion
  current : List (List Char × Nat)
  counter : Nat
deriving DecidableEq

def emptyStore : SchemaStore := ⟨[], [], 0⟩

def setCurrent : List (List Char × Nat) → List Char → Nat → List (List Char × Nat)
  | [], sid, vid => [(sid, vid)]
  | (s, v) :: rest, sid, vid =>
    if s = sid then (s, vid) :: rest else (s, v) :: setCurrent rest sid vid

def lookupCurrent (st : SchemaStore) (sid : List Char) : Option SchemaVersion :=
  match st.current.find? (fun p => p.1 = sid) with
  | some p => st.versions.find? (fun v => v.version = p.2)
  | none => none

/-- What `infer_schema` hands back to its caller: version id, hash and the
Change list of this call. -/
structure InferResult where
  version : Nat
  hash : List (List Char × DataType × Nat)
  changes : List Change
deriving DecidableEq

/-- Modelled from the spec: §4.5 — build the candidate schema, hash it; if
the hash matches the current version for this source_id the call is a
no-op (same version id and hash, empty Change list); otherwise diff
against the prior current version (or an empty baseline), allocate the
next global id, append immutably and move the current pointer. -/
def infer_schema (records : List Rec) (sid now : List Char) (st : SchemaStore) :
    InferResult × SchemaStore :=
  let schema := buildSchema records
  let h := schemaHash schema
  let mkNew := fun (prev : Option SchemaVersion) =>
    let changes := diffSchemas (match prev with
      | some v => v.fields
      | none => []) schema
    let vid := st.counter + 1
    let ver : SchemaVersion :=
      { version := vid, timestamp := now, hash := h, fields := schema,
        changes := changes, sourceId := sid }
    ({ version := vid, hash := h, changes := changes },
     { versions := st.versions ++ [ver],
       current := setCurrent st.current sid vid,
       counter := vid })
  match lookupCurrent st sid with
  | some cur =>
    if cur.hash = h then ({ version := cur.version, hash := h, changes := [] }, st)
    else mkNew (some cur)
  | none => mkNew none

/-- Modelled from the spec: the failure taxonomy entry for exporting an
unknown version id (§7) — the only caller-facing failure of export. -/
inductive ExportError where
  | schemaVersionNotFound : Nat → ExportError
deriving DecidableEq

/-- Modelled from the spec: the `{version, timestamp, hash, fields,
changes}` export structure (§6). -/
structure SchemaExport where
  version : Nat
  timestamp : List Char
  hash : List (List Char × DataType × Nat)
  fields : List (List Char × FieldSchema)
  changes : List Change
deriving DecidableEq

/-- Modelled from the spec: `export_schema(version_id)` — the structure for
a present version, `SchemaVersionNotFound` for an absent one (`main.py`'s
endpoint performs the same membership check; its re-wrapping of the
failure into an HTTP status is transport-layer, excluded by spec §1). -/
def export_schema (vid : Nat) (st : SchemaStore) : Except ExportError SchemaExport :=
  match st.versions.find? (fun v => v.version = vid) with
  | some v =>
    .ok { version := v.version, timestamp := v.timestamp, hash := v.hash,
          fields := v.fields, changes := v.changes }
  | none => .error (.schemaVersionNotFound vid)

/-- Store sanity: the global allocator dominates every allocated id (true
of every store reachable from `emptyStore`). -/
def storeWF (st : SchemaStore) : Bool :=
  st.versions.all (fun v => v.version ≤ st.counter)

/-! ### Dictionary lemmas -/

theorem recLookup_cons (k0 : List Char) (v0 : Value) (rest : Rec) (k : List Char) :
    recLookup ((k0, v0) :: rest) k
      = if k0 = k then some v0 else recLookup rest k := by
  by_cases h : k0 = k <;> simp [recLookup, List.find?_cons, h]

theorem dictInsert_cons (k : List Char) (v : Value) (k0 : List Char) (v0 : Value)
    (rest : Rec) :
    dictInsert k v ((k0, v0) :: rest)
      = if k0 = k then (k0, v) :: rest else (k0, v0) :: dictInsert k v rest := rfl

theorem recLookup_dictInsert_self (k : List Char) (v : Value) (r : Rec) :
    recLookup (dictInsert k v r) k = some v := by
  induction r with
  | nil => simp [dictInsert, recLookup, List.find?_cons]
  | cons p rest ih =>
    obtain ⟨k0, v0⟩ := p
    rw [dictInsert_cons]
    by_cases h : k0 = k
    · simp [h, recLookup_cons]
    · rw [if_neg h, recLookup_cons, if_neg h]
      exact ih

theorem recLookup_dictInsert_other (k k' : List Char) (v : Value) (r : Rec)
    (h : k' ≠ k) : recLookup (dictInsert k' v r) k = recLookup r k := by
  induction r with
  | nil => simp [dictInsert, recLookup, List.find?_cons, h]
  | cons p rest ih =>
    obtain ⟨k0, v0⟩ := p
    rw [dictInsert_cons]
    by_cases h0 : k0 = k'
    · subst h0
      rw [if_pos rfl, recLookup_cons, recLookup_cons, if_neg h, if_neg h]
    · rw [if_neg h0, recLookup_cons, recLookup_cons]
      by_cases h1 : k0 = k
      · rw [if_pos h1, if_pos h1]
      · rw [if_neg h1, if_neg h1]
        exact ih

/-- Keys of an update list are pairwise distinct. -/
def keysDistinct : Rec → Bool
  | [] => true
  | (k, _) :: rest => rest.all (fun p => p.1 ≠ k) && keysDistinct rest

theorem recLookup_recUpdate_absent (k : List Char) :
    ∀ (m r : Rec), m.all (fun p => p.1 ≠ k) = true →
      recLookup (recUpdate r m) k = recLookup r k := by
  intro m
  induction m with
  | nil => intro r _; simp [recUpdate]
  | cons p rest ih =>
    intro r h
    obtain ⟨k0, v0⟩ := p
    rw [List.all_cons, Bool.and_eq_true] at h
    have h1 : k0 ≠ k := by simpa using h.1
    show recLookup (recUpdate (dictInsert k0 v0 r) rest) k = recLookup r k
    have step := ih (dictInsert k0 v0 r) h.2
    rw [step, recLookup_dictInsert_other _ _ _ _ h1]

theorem recLookup_recUpdate_mem (k : List Char) (v : Value) :
    ∀ (m r : Rec), keysDistinct m = true → (k, v) ∈ m →
      recLookup (recUpdate r m) k = some v := by
  intro m
  induction m with
  | nil => intro r _ hm; cases hm
  | cons p rest ih =>
    intro r hd hm
    obtain ⟨k0, v0⟩ := p
    simp only [keysDistinct, Bool.and_eq_true] at hd
    rcases List.mem_cons.mp hm with heq | hrest
    · cases heq
      show recLookup (recUpdate (dictInsert k v r) rest) k = some v
      rw [recLookup_recUpdate_absent k rest (dictInsert k v r) hd.1,
        recLookup_dictInsert_self]
    · exact ih _ hd.2 hrest

theorem recErase_cons (k : List Char) (k0 : List Char) (v0 : Value) (rest : Rec) :
    recErase k ((k0, v0) :: rest)
      = if k0 = k then recErase k rest else (k0, v0) :: recErase k rest := by
  by_cases h : k0 = k <;> simp [recErase, List.filter_cons, h]

theorem recErase_dictInsert_self (k : List Char) (v : Value) (r : Rec) :
    recErase k (dictInsert k v r) = recErase k r := by
  induction r with
  | nil => simp [dictInsert, recErase]
  | cons p rest ih =>
    obtain ⟨k0, v0⟩ := p
    rw [dictInsert_cons]
    by_cases h : k0 = k
    · rw [if_pos h, recErase_cons, recErase_cons, if_pos h, if_pos h]
    · rw [if_neg h, recErase_cons, recErase_cons, if_neg h, if_neg h, ih]

theorem recErase_dictInsert_other (k k' : List Char) (v : Value) (r : Rec)
    (h : k' ≠ k) : recErase k (dictInsert k' v r) = dictInsert k' v (recErase k r) := by
  induction r with
  | nil => simp [dictInsert, recErase, List.filter_cons, h]
  | cons p rest ih =>
    obtain ⟨k0, v0⟩ := p
    rw [dictInsert_cons]
    by_cases h0 : k0 = k'
    · subst h0
      rw [if_pos rfl, recErase_cons, recErase_cons, if_neg h, if_neg h,
        dictInsert_cons, if_pos rfl]
    · rw [if_neg h0, recErase_cons, recErase_cons]
      by_cases h1 : k0 = k
      · rw [if_pos h1, if_pos h1, ih]
      · rw [if_neg h1, if_neg h1, dictInsert_cons, if_neg h0, ih]

theorem recErase_recUpdate_congr (k : List Char) (m : Rec) :
    ∀ s s', recErase k s = recErase k s' →
      recErase k (recUpdate s m) = recErase k (recUpdate s' m) := by
  induction m with
  | nil => intro s s' h; simpa [recUpdate] using h
  | cons p rest ih =>
    intro s s' h
    obtain ⟨k0, v0⟩ := p
    show recErase k (recUpdate (dictInsert k0 v0 s) rest)
      = recErase k (recUpdate (dictInsert k0 v0 s') rest)
    apply ih
    by_cases h0 : k0 = k
    · subst h0; rw [recErase_dictInsert_self, recErase_dictInsert_self]; exact h
    · rw [recErase_dictInsert_other _ _ _ _ h0, recErase_dictInsert_other _ _ _ _ h0, h]

/-! ### Claim theorems -/

/-- A matched section that raises or yields Records. -/
def sectionYields (p : List Char × List Char) : Bool :=
  match parseSection p.1 p.2 with
  | .error _ => true
  | .ok rs => !rs.isEmpty

theorem sectionContrib_length_ge (f : List Char) (p : List Char × List Char)
    (h : sectionYields p = true) : 1 ≤ (sectionContrib f p).length := by
  unfold sectionYields at h
  unfold sectionContrib
  cases hp : parseSection p.1 p.2 with
  | error e => simp
  | ok rs =>
    rw [hp] at h
    simp only [Bool.not_eq_true'] at h
    cases rs with
    | nil => simp [List.isEmpty] at h
    | cons a t => simp

theorem flatten_contrib_count_le (f : List Char) :
    ∀ l : List (List Char × List Char),
      l.countP sectionYields ≤ ((l.map (sectionContrib f)).flatten).length := by
  intro l
  induction l with
  | nil => simp
  | cons p rest ih =>
    simp only [List.map_cons, List.flatten_cons, List.length_append, List.countP_cons]
    by_cases h : sectionYields p = true
    · rw [if_pos h]
      have h1 := sectionContrib_length_ge f p h
      omega
    · rw [if_neg h]
      omega

theorem parse_file_length_eq (content filename now : List Char) :
    (parse_file content filename now).length
      = (((extractSections content).map (sectionContrib filename)).flatten).length := by
  simp only [parse_file]
  split
  · rfl
  · exact List.length_map _ _

/-- C1 (amended): every matched section whose parser raises contributes
exactly one fallback Record and every section whose parser returns Records
contributes them all, so the Record count of `parse_file` is at least the
number of matched sections that raise or return a non-empty Record list.
(A matched section whose parser returns zero Records — e.g. a metadata
section with no `key: value` line — contributes nothing, which is why the
bound cannot be the full section count.) -/
theorem parse_file_count_ge_yielding_sections (content filename now : List Char) :
    (extractSections content).countP sectionYields
      ≤ (parse_file content filename now).length := by
  rw [parse_file_length_eq]
  exact flatten_contrib_count_le filename (extractSections content)

/-- C1 (counterexample): `"--- METADATA\nnothing here"` matches one section
(metadata), but its parser finds no `key: value` line and returns zero
Records, so `parse_file` returns fewer Records than there are matched
sections. -/
theorem parse_file_count_cex :
    (parse_file (chars "--- METADATA\nnothing here") (chars "f.txt") (chars "t0")).length
      < (extractSections (chars "--- METADATA\nnothing here")).length := by
  decide

/-- C2: `parse_file` absorbs a section parser's error — its type is a plain
Record list, and a section whose parser raises contributes exactly one
fallback Record holding the section's tag, its raw content truncated to
500 characters, the error string and the filename; that Record (updated
with the global metadata like every other) appears in the output. -/
theorem parse_file_error_fallback (content filename now tag sec e : List Char)
    (hmem : (tag, sec) ∈ extractSections content)
    (herr : parseSection tag sec = .error e) :
    sectionContrib filename (tag, sec) = [fallbackRecord tag sec e filename]
    ∧ ∃ pre post, parse_file content filename now =
        pre ++ recUpdate (fallbackRecord tag sec e filename)
          (extractGlobalMetadata content filename now) :: post := by
  have hcontrib : sectionContrib filename (tag, sec)
      = [fallbackRecord tag sec e filename] := by
    show (match parseSection tag sec with
      | .ok rs => rs
      | .error e' => [fallbackRecord tag sec e' filename])
      = [fallbackRecord tag sec e filename]
    rw [herr]
  refine ⟨hcontrib, ?_⟩
  obtain ⟨s1, s2, hsec⟩ := List.append_of_mem hmem
  have hflat : ((extractSections content).map (sectionContrib filename)).flatten
      = (s1.map (sectionContrib filename)).flatten
        ++ fallbackRecord tag sec e filename
          :: (s2.map (sectionContrib filename)).flatten := by
    rw [hsec]
    simp [List.map_append, List.flatten_append, hcontrib]
  refine ⟨((s1.map (sectionContrib filename)).flatten).map
      (fun r => recUpdate r (extractGlobalMetadata content filename now)),
    ((s2.map (sectionContrib filename)).flatten).map
      (fun r => recUpdate r (extractGlobalMetadata content filename now)), ?_⟩
  simp only [parse_file]
  rw [hflat]
  split
  · rename_i hemp
    rw [List.isEmpty_eq_true, List.append_eq_nil] at hemp
    exact absurd hemp.2 (List.cons_ne_nil _ _)
  · simp [List.map_append, List.map_cons]

/-- C2 (witness): a JSON-LD section whose script payload is the JSON array
`[1]` makes `parsed['data_type'] = 'json_ld'` raise a `TypeError`, which
`parse_file` turns into exactly one fallback Record. -/
theorem parse_file_error_fallback_witness :
    sectionContrib (chars "f.txt")
      (chars "json_ld",
       chars "--- JSON-LD\n<script type=\"application/ld+json\">[1]</script>")
      = [fallbackRecord (chars "json_ld")
          (chars "--- JSON-LD\n<script type=\"application/ld+json\">[1]</script>")
          (chars "list indices must be integers or slices, not str")
          (chars "f.txt")]
    ∧ ∃ pre post,
        parse_file (chars "--- JSON-LD\n<script type=\"application/ld+json\">[1]</script>")
          (chars "f.txt") (chars "t0")
        = pre ++ recUpdate (fallbackRecord (chars "json_ld")
            (chars "--- JSON-LD\n<script type=\"application/ld+json\">[1]</script>")
            (chars "list indices must be integers or slices, not str")
            (chars "f.txt"))
            (extractGlobalMetadata
              (chars "--- JSON-LD\n<script type=\"application/ld+json\">[1]</script>")
              (chars "f.txt") (chars "t0")) :: post :=
  parse_file_error_fallback _ _ _ _ _ _ (by decide) (by decide)

theorem erase_update_meta (r : Rec) (content filename t1 t2 : List Char) :
    recErase (chars "processed_at") (recUpdate r (extractGlobalMetadata content filename t1))
    = recErase (chars "processed_at") (recUpdate r (extractGlobalMetadata content filename t2)) := by
  have e1 : ∀ t : List Char,
      recErase (chars "processed_at")
        (dictInsert (chars "total_lines") (Value.int (splitOnC '\n' content).length)
          (dictInsert (chars "file_size_chars") (Value.int content.length)
            (dictInsert (chars "processed_at") (Value.str t)
              (dictInsert (chars "source_file") (Value.str filename) r))))
      = dictInsert (chars "total_lines") (Value.int (splitOnC '\n' content).length)
          (dictInsert (chars "file_size_chars") (Value.int content.length)
            (recErase (chars "processed_at")
              (dictInsert (chars "source_file") (Value.str filename) r))) := by
    intro t
    rw [recErase_dictInsert_other _ _ _ _ (by decide),
      recErase_dictInsert_other _ _ _ _ (by decide),
      recErase_dictInsert_self]
  exact recErase_recUpdate_congr (chars "processed_at")
    ((chars "file_size_chars", Value.int content.length)
      :: (chars "total_lines", Value.int (splitOnC '\n' content).length)
      :: ((match searchWith tryScrapedAt content.length content with
          | some v => [(chars "scraped_at", Value.str (pyStrip v))]
          | none => [])
        ++ (match searchWith trySourceUrlAt content.length content with
          | some v => [(chars "source_url", Value.str (pyStrip v))]
          | none => [])))
    (dictInsert (chars "processed_at") (Value.str t1)
      (dictInsert (chars "source_file") (Value.str filename) r))
    (dictInsert (chars "processed_at") (Value.str t2)
      (dictInsert (chars "source_file") (Value.str filename) r))
    (by rw [recErase_dictInsert_self, recErase_dictInsert_self])

/-- C8 (amended): `parse_file` holds no mutable state (the embedding is a
pure function of content, filename and the clock reading) and is
deterministic up to the wall clock: with the clock an explicit argument,
two runs on the same content and filename agree once the `processed_at`
field is discarded from every Record. -/
theorem parse_file_deterministic_mod_clock (content filename t1 t2 : List Char) :
    (parse_file content filename t1).map (recErase (chars "processed_at"))
    = (parse_file content filename t2).map (recErase (chars "processed_at")) := by
  simp only [parse_file]
  by_cases h : (((extractSections content).map (sectionContrib filename)).flatten).isEmpty = true
  · rw [if_pos h, if_pos h]
  · rw [if_neg h, if_neg h, List.map_map, List.map_map]
    apply List.map_congr_left
    intro r _
    exact erase_update_meta r content filename t1 t2

/-- C8 (counterexample): two runs of `parse_file` on the same content and
filename but at different clock readings return different Record
sequences — `processed_at` records the call time, so raw two-run equality
fails. -/
theorem parse_file_two_run_cex :
    parse_file (chars "--- METADATA\nfoo: bar") (chars "f.txt")
        (chars "2024-01-01T00:00:00")
      ≠ parse_file (chars "--- METADATA\nfoo: bar") (chars "f.txt")
        (chars "2025-01-01T00:00:00") := by
  decide

theorem meta_keysDistinct (c f t : List Char) :
    keysDistinct (extractGlobalMetadata c f t) = true := by
  unfold extractGlobalMetadata
  rcases searchWith tryScrapedAt c.length c with _ | v1 <;>
    rcases searchWith trySourceUrlAt c.length c with _ | v2 <;>
      simp only [keysDistinct, List.append_eq, List.cons_append, List.nil_append,
        List.all_cons, List.all_nil, List.all_append, Bool.and_eq_true,
        decide_eq_true_eq] <;>
      decide

/-- C10: whenever `parse_file` returns Records, every returned Record maps
each global-metadata key (`source_file`, `processed_at`,
`file_size_chars`, `total_lines`, plus `scraped_at`/`source_url` when
their patterns match) to the global-metadata value — `record.update`
overwrites any same-named field a section parser produced. -/
theorem parse_file_metadata_in_records (content filename now : List Char) (r : Rec)
    (hr : r ∈ parse_file content filename now)
    (kv : List Char × Value)
    (hkv : kv ∈ extractGlobalMetadata content filename now) :
    recLookup r kv.1 = some kv.2 := by
  simp only [parse_file] at hr
  by_cases h : (((extractSections content).map (sectionContrib filename)).flatten).isEmpty = true
  · rw [if_pos h] at hr
    rw [List.isEmpty_eq_true] at h
    rw [h] at hr
    cases hr
  · rw [if_neg h] at hr
    obtain ⟨r0, _, rfl⟩ := List.mem_map.mp hr
    obtain ⟨k, v⟩ := kv
    exact recLookup_recUpdate_mem k v _ r0 (meta_keysDistinct content filename now) hkv

/-- C10 (witness): the single Record parsed from a small metadata document
carries `source_file` with the caller's filename. -/
theorem parse_file_metadata_in_records_witness :
    recLookup [(chars "data_type", Value.str (chars "metadata")),
        (chars "foo", Value.str (chars "bar")),
        (chars "source_file", Value.str (chars "f.txt")),
        (chars "processed_at", Value.str (chars "t0")),
        (chars "file_size_chars", Value.int 21),
        (chars "total_lines", Value.int 2)] (chars "source_file")
      = some (Value.str (chars "f.txt")) :=
  parse_file_metadata_in_records (chars "--- METADATA\nfoo: bar") (chars "f.txt")
    (chars "t0") _ (by decide)
    (chars "source_file", Value.str (chars "f.txt")) (by decide)

/-! ### String lemmas for the line-oriented parsers -/

theorem contains_append_eq (c : Char) (l r : List Char) :
    (l ++ r).contains c = (l.contains c || r.contains c) := by
  induction l with
  | nil => simp
  | cons a t ih =>
    rw [List.cons_append, List.contains_cons, List.contains_cons, ih, Bool.or_assoc]

theorem splitOnC_of_not_contains (sep : Char) :
    ∀ l : List Char, l.contains sep = false → splitOnC sep l = [l] := by
  intro l
  induction l with
  | nil => intro _; rfl
  | cons a t ih =>
    intro h
    rw [List.contains_cons, Bool.or_eq_false_iff] at h
    have ha : ¬(a = sep) := fun he => by
      rw [he] at h
      simp at h
    unfold splitOnC
    rw [if_neg ha, ih h.2]

theorem splitOnC_append_sep (sep : Char) :
    ∀ l r : List Char, l.contains sep = false →
      splitOnC sep (l ++ sep :: r) = l :: splitOnC sep r := by
  intro l
  induction l with
  | nil =>
    intro r _
    show splitOnC sep (sep :: r) = [] :: splitOnC sep r
    conv_lhs => unfold splitOnC
    rw [if_pos rfl]
  | cons a t ih =>
    intro r h
    rw [List.contains_cons, Bool.or_eq_false_iff] at h
    have ha : ¬(a = sep) := fun he => by
      rw [he] at h
      simp at h
    show splitOnC sep (a :: (t ++ sep :: r)) = (a :: t) :: splitOnC sep r
    conv_lhs => unfold splitOnC
    rw [if_neg ha, ih r h.2]

theorem rstripP_cons_nonmatch (p : Char → Bool) (a : Char) (l : List Char)
    (h : p a = false) : rstripP p (a :: l) = a :: rstripP p l := by
  unfold rstripP
  rw [List.reverse_cons, List.dropWhile_append]
  by_cases hd : (l.reverse.dropWhile p).isEmpty = true
  · rw [if_pos hd]
    rw [List.isEmpty_eq_true] at hd
    rw [hd]
    simp [List.dropWhile_cons, h]
  · rw [if_neg hd, List.reverse_append]
    rw [List.isEmpty_eq_true] at hd
    simp

theorem pyStrip_cons_nonspace (a : Char) (l : List Char) (h : pySpace a = false) :
    pyStrip (a :: l) = a :: rstripP pySpace l := by
  unfold pyStrip stripP
  have hl : lstripP pySpace (a :: l) = a :: l := by
    unfold lstripP
    rw [if_neg (by simp [h])]
  rw [hl, rstripP_cons_nonmatch pySpace a l h]

theorem pyStrip_space_cons (l : List Char) : pyStrip (' ' :: l) = pyStrip l := by
  unfold pyStrip stripP
  have hl : lstripP pySpace (' ' :: l) = lstripP pySpace l := by
    conv_lhs => unfold lstripP
    rw [if_pos (by decide)]
  rw [hl]

theorem lineFacts (v : List Char) :
    containsChar ':' (chars "a: " ++ v) = true
    ∧ startsWithL (chars "#") (pyStrip (chars "a: " ++ v)) = false
    ∧ startsWithL (chars "---") (pyStrip (chars "a: " ++ v)) = false
    ∧ splitFirst ':' (chars "a: " ++ v) = some (chars "a", ' ' :: v) := by
  refine ⟨?_, ?_, ?_, ?_⟩
  · simp only [containsChar]
    rw [show (chars "a: " ++ v) = 'a' :: (':' :: ' ' :: v) from rfl]
    rw [List.contains_cons, List.contains_cons]
    simp
  · rw [show (chars "a: " ++ v) = 'a' :: (':' :: ' ' :: v) from rfl,
      pyStrip_cons_nonspace 'a' _ (by decide)]
    rfl
  · rw [show (chars "a: " ++ v) = 'a' :: (':' :: ' ' :: v) from rfl,
      pyStrip_cons_nonspace 'a' _ (by decide)]
    rfl
  · rfl

theorem metaTwoLines (v1 v2 : List Char)
    (h1 : v1.contains '\n' = false) (h2 : v2.contains '\n' = false) :
    parseMetadata ((chars "a: " ++ v1) ++ '\n' :: (chars "a: " ++ v2))
      = [[(chars "data_type", Value.str (chars "metadata")),
          (chars "a", Value.str (pyStrip v2))]] := by
  have hl1 : (chars "a: " ++ v1).contains '\n' = false := by
    rw [contains_append_eq, h1]
    decide
  have hl2 : (chars "a: " ++ v2).contains '\n' = false := by
    rw [contains_append_eq, h2]
    decide
  have hlines : splitOnC '\n' ((chars "a: " ++ v1) ++ '\n' :: (chars "a: " ++ v2))
      = (chars "a: " ++ v1) :: [chars "a: " ++ v2] := by
    rw [splitOnC_append_sep '\n' _ _ hl1, splitOnC_of_not_contains '\n' _ hl2]
  have f1 := lineFacts v1
  have f2 := lineFacts v2
  unfold parseMetadata
  rw [hlines]
  simp only [List.foldl_cons, List.foldl_nil, f1.1, f1.2.1, f1.2.2.1, f1.2.2.2,
    f2.1, f2.2.1, f2.2.2.1, f2.2.2.2, Bool.not_false, Bool.and_self, Bool.true_and,
    Bool.and_true, if_true, pyStrip_space_cons]
  rw [show pyStrip (chars "a") = chars "a" from rfl]
  rw [show ∀ X, dictInsert (chars "a") X
        [(chars "data_type", Value.str (chars "metadata"))]
      = [(chars "data_type", Value.str (chars "metadata")), (chars "a", X)]
    from fun X => by rw [dictInsert_cons, if_neg (by decide)]; rfl]
  rw [show ∀ X Y, dictInsert (chars "a") Y
        [(chars "data_type", Value.str (chars "metadata")), (chars "a", X)]
      = [(chars "data_type", Value.str (chars "metadata")), (chars "a", Y)]
    from fun X Y => by rw [dictInsert_cons, if_neg (by decide), dictInsert_cons, if_pos rfl]]
  rw [if_pos (by simp)]

theorem kvTwoLines (v1 v2 : List Char)
    (h1 : v1.contains '\n' = false) (h2 : v2.contains '\n' = false) :
    parseKeyValue ((chars "a: " ++ v1) ++ '\n' :: (chars "a: " ++ v2))
      = [[(chars "data_type", Value.str (chars "key_value_pairs")),
          (chars "a", Value.str (pyStrip v2))]] := by
  have hl1 : (chars "a: " ++ v1).contains '\n' = false := by
    rw [contains_append_eq, h1]
    decide
  have hl2 : (chars "a: " ++ v2).contains '\n' = false := by
    rw [contains_append_eq, h2]
    decide
  have hlines : splitOnC '\n' ((chars "a: " ++ v1) ++ '\n' :: (chars "a: " ++ v2))
      = (chars "a: " ++ v1) :: [chars "a: " ++ v2] := by
    rw [splitOnC_append_sep '\n' _ _ hl1, splitOnC_of_not_contains '\n' _ hl2]
  have f1 := lineFacts v1
  have f2 := lineFacts v2
  unfold parseKeyValue
  rw [hlines]
  simp only [List.foldl_cons, List.foldl_nil, f1.1, f1.2.1, f1.2.2.1, f1.2.2.2,
    f2.1, f2.2.1, f2.2.2.1, f2.2.2.2, Bool.not_false, Bool.and_self, Bool.true_and,
    Bool.and_true, if_true, pyStrip_space_cons]
  rw [show pyStrip (chars "a") = chars "a" from rfl]
  rw [show ∀ X, dictInsert (chars "a") X
        [(chars "data_type", Value.str (chars "key_value_pairs"))]
      = [(chars "data_type", Value.str (chars "key_value_pairs")), (chars "a", X)]
    from fun X => by rw [dictInsert_cons, if_neg (by decide)]; rfl]
  rw [show ∀ X Y, dictInsert (chars "a") Y
        [(chars "data_type", Value.str (chars "key_value_pairs")), (chars "a", X)]
      = [(chars "data_type", Value.str (chars "key_value_pairs")), (chars "a", Y)]
    from fun X Y => by rw [dictInsert_cons, if_neg (by decide), dictInsert_cons, if_pos rfl]]
  rw [if_pos (by simp)]

theorem repTwoLines (v1 v2 : List Char)
    (h1 : v1.contains '\n' = false) (h2 : v2.contains '\n' = false) :
    parseRepeatedFields ((chars "a: " ++ v1) ++ '\n' :: (chars "a: " ++ v2))
      = [[(chars "a", Value.list [Value.str (pyStrip v1), Value.str (pyStrip v2)]),
          (chars "data_type", Value.str (chars "repeated_fields"))]] := by
  have hl1 : (chars "a: " ++ v1).contains '\n' = false := by
    rw [contains_append_eq, h1]
    decide
  have hl2 : (chars "a: " ++ v2).contains '\n' = false := by
    rw [contains_append_eq, h2]
    decide
  have hlines : splitOnC '\n' ((chars "a: " ++ v1) ++ '\n' :: (chars "a: " ++ v2))
      = (chars "a: " ++ v1) :: [chars "a: " ++ v2] := by
    rw [splitOnC_append_sep '\n' _ _ hl1, splitOnC_of_not_contains '\n' _ hl2]
  have f1 := lineFacts v1
  have f2 := lineFacts v2
  unfold parseRepeatedFields
  rw [hlines]
  simp only [List.foldl_cons, List.foldl_nil, f1.1, f1.2.1, f1.2.2.1, f1.2.2.2,
    f2.1, f2.2.1, f2.2.2.1, f2.2.2.2, Bool.not_false, Bool.and_self, Bool.true_and,
    Bool.and_true, if_true, pyStrip_space_cons]
  rw [show pyStrip (chars "a") = chars "a" from rfl]
  rw [show recLookup ([] : Rec) (chars "a") = none from rfl]
  dsimp only
  rw [show ∀ X : Value, dictInsert (chars "a") X [] = [(chars "a", X)] from fun X => rfl]
  rw [show ∀ X, recLookup [(chars "a", X)] (chars "a") = some X
    from fun X => by rw [recLookup_cons, if_pos rfl]]
  dsimp only
  rw [show ∀ X Y, dictInsert (chars "a") Y [(chars "a", X)] = [(chars "a", Y)]
    from fun X Y => by rw [dictInsert_cons, if_pos rfl]]
  rw [show ∀ X, dictInsert (chars "data_type") X
        [(chars "a", Value.list [Value.str (pyStrip v1), Value.str (pyStrip v2)])]
      = [(chars "a", Value.list [Value.str (pyStrip v1), Value.str (pyStrip v2)]),
         (chars "data_type", X)]
    from fun X => by rw [dictInsert_cons, if_neg (by decide)]; rfl]
  simp

/-- C4 (amended): in the metadata, key-value and repeated-fields section
parsers each non-comment line is split on the first colon, but when the
same key occurs on multiple lines only the repeated-fields parser
accumulates the values into a list — the metadata and key-value parsers
overwrite, keeping the last value. -/
theorem line_parsers_repeated_keys (v1 v2 : List Char)
    (h1 : v1.contains '\n' = false) (h2 : v2.contains '\n' = false) :
    parseMetadata ((chars "a: " ++ v1) ++ '\n' :: (chars "a: " ++ v2))
      = [[(chars "data_type", Value.str (chars "metadata")),
          (chars "a", Value.str (pyStrip v2))]]
    ∧ parseKeyValue ((chars "a: " ++ v1) ++ '\n' :: (chars "a: " ++ v2))
      = [[(chars "data_type", Value.str (chars "key_value_pairs")),
          (chars "a", Value.str (pyStrip v2))]]
    ∧ parseRepeatedFields ((chars "a: " ++ v1) ++ '\n' :: (chars "a: " ++ v2))
      = [[(chars "a", Value.list [Value.str (pyStrip v1), Value.str (pyStrip v2)]),
          (chars "data_type", Value.str (chars "repeated_fields"))]] :=
  ⟨metaTwoLines v1 v2 h1 h2, kvTwoLines v1 v2 h1 h2, repTwoLines v1 v2 h1 h2⟩

/-- C4 (counterexample): on `"a: 1\na: 2"` the metadata and key-value
parsers map `a` to the plain string `"2"` — the later value overwrote the
earlier one instead of accumulating into a list. -/
theorem line_parsers_repeated_keys_cex :
    parseMetadata (chars "a: 1\na: 2")
      = [[(chars "data_type", Value.str (chars "metadata")),
          (chars "a", Value.str (chars "2"))]]
    ∧ parseKeyValue (chars "a: 1\na: 2")
      = [[(chars "data_type", Value.str (chars "key_value_pairs")),
          (chars "a", Value.str (chars "2"))]] := by
  decide

/-- C4 (witness): with `x:1` as the first value (exercising the
first-colon split) and `2` as the second. -/
theorem line_parsers_repeated_keys_witness :
    parseMetadata ((chars "a: " ++ chars "x:1") ++ '\n' :: (chars "a: " ++ chars "2"))
      = [[(chars "data_type", Value.str (chars "metadata")),
          (chars "a", Value.str (pyStrip (chars "2")))]]
    ∧ parseKeyValue ((chars "a: " ++ chars "x:1") ++ '\n' :: (chars "a: " ++ chars "2"))
      = [[(chars "data_type", Value.str (chars "key_value_pairs")),
          (chars "a", Value.str (pyStrip (chars "2")))]]
    ∧ parseRepeatedFields ((chars "a: " ++ chars "x:1") ++ '\n' :: (chars "a: " ++ chars "2"))
      = [[(chars "a", Value.list [Value.str (pyStrip (chars "x:1")),
            Value.str (pyStrip (chars "2"))]),
          (chars "data_type", Value.str (chars "repeated_fields"))]] :=
  line_parsers_repeated_keys (chars "x:1") (chars "2") (by decide) (by decide)

theorem length_filterMap_ite {α β : Type} (q : α → Prop) [DecidablePred q]
    (g : α → β) :
    ∀ l : List α, (l.filterMap (fun x => if q x then some (g x) else none)).length
      = l.countP (fun x => decide (q x)) := by
  intro l
  induction l with
  | nil => rfl
  | cons a t ih =>
    by_cases h : q a <;>
      simp [List.filterMap_cons, h, List.countP_cons, ih]

/-- C6: a CSV-like section (manual branch; the pandas path is an external
collaborator excluded by spec §1): the first qualifying line is the
header, each later line yields a Record exactly when its comma-field count
matches the header's — a mismatched row is silently dropped, nothing can
raise, and every produced Record is tagged `csv_row` (no error Record
exists in this branch). -/
theorem csv_mismatched_rows (content : List Char) (h0 : List Char)
    (rest : List (List Char)) (hl : csvFilteredLines content = h0 :: rest) :
    (parseCsvSection content).length
      = rest.countP (fun l => decide ((splitOnC ',' l).length = (splitOnC ',' h0).length))
    ∧ ∀ r ∈ parseCsvSection content,
        recLookup r (chars "data_type") = some (Value.str (chars "csv_row")) := by
  have hps : parseCsvSection content
      = if rest.isEmpty then []
        else rest.filterMap (fun line =>
          let values := (splitOnC ',' line).map pyStrip
          if values.length = (((splitOnC ',' h0).map pyStrip)).length then
            some (dictInsert (chars "data_type") (.str (chars "csv_row"))
              (((((splitOnC ',' h0).map pyStrip)).zip values).foldl
                (fun acc p => dictInsert p.1 (.str p.2) acc) []))
          else none) := by
    unfold parseCsvSection
    rw [hl]
  by_cases hrest : rest.isEmpty = true
  · rw [List.isEmpty_eq_true] at hrest
    subst hrest
    constructor
    · rw [hps]
      rfl
    · intro r hr
      rw [hps] at hr
      simp at hr
  · constructor
    · rw [hps, if_neg (by simp [hrest])]
      rw [length_filterMap_ite
        (fun line => ((splitOnC ',' line).map pyStrip).length
          = ((splitOnC ',' h0).map pyStrip).length)]
      apply List.countP_congr
      intro line _
      simp [List.length_map]
    · intro r hr
      rw [hps, if_neg (by simp [hrest])] at hr
      obtain ⟨line, _, hfa⟩ := List.mem_filterMap.mp hr
      by_cases hc : ((splitOnC ',' line).map pyStrip).length
          = ((splitOnC ',' h0).map pyStrip).length
      · rw [if_pos hc] at hfa
        obtain rfl := Option.some.inj hfa
        exact recLookup_dictInsert_self _ _ _
      · rw [if_neg hc] at hfa
        cases hfa

/-- C6 (witness): a header, two well-formed rows and one three-field row —
the bad row is dropped, the two good rows are parsed as `csv_row`. -/
theorem csv_mismatched_rows_witness :
    (parseCsvSection (chars "--- CSV-LIKE SECTION\na,b\n1,2\n3,4,5\n6,7")).length
      = [chars "1,2", chars "3,4,5", chars "6,7"].countP
          (fun l => decide ((splitOnC ',' l).length = (splitOnC ',' (chars "a,b")).length))
    ∧ ∀ r ∈ parseCsvSection (chars "--- CSV-LIKE SECTION\na,b\n1,2\n3,4,5\n6,7"),
        recLookup r (chars "data_type") = some (Value.str (chars "csv_row")) :=
  csv_mismatched_rows (chars "--- CSV-LIKE SECTION\na,b\n1,2\n3,4,5\n6,7")
    (chars "a,b") [chars "1,2", chars "3,4,5", chars "6,7"] (by decide)

/-- Brace scan: (final depth, maximum depth, never-underflowed), defined
independently of the regex matcher. -/
def braceScanAux : List Char → Nat → Nat → Nat × Nat × Bool
  | [], d, m => (d, m, true)
  | c :: rest, d, m =>
    if c = '{' then braceScanAux rest (d + 1) (max m (d + 1))
    else if c = '}' then
      match d with
      | 0 => (0, m, false)
      | d' + 1 => braceScanAux rest d' m
    else braceScanAux rest d m

/-- The braces of `l` are balanced. -/
def bracesBalanced (l : List Char) : Bool :=
  (braceScanAux l 0 0).2.2 && decide ((braceScanAux l 0 0).1 = 0)

/-- Maximum brace-nesting depth reached while scanning `l`. -/
def maxBraceDepth (l : List Char) : Nat := (braceScanAux l 0 0).2.1

theorem braceScanAux_nonbrace :
    ∀ seg : List Char, seg.all (fun c => c ≠ '{' && c ≠ '}') = true →
      ∀ rest d m, braceScanAux (seg ++ rest) d m = braceScanAux rest d m := by
  intro seg
  induction seg with
  | nil => intro _ rest d m; rfl
  | cons a t ih =>
    intro h rest d m
    rw [List.all_cons, Bool.and_eq_true] at h
    have ha := h.1
    rw [Bool.and_eq_true, decide_eq_true_eq, decide_eq_true_eq] at ha
    rw [List.cons_append]
    show braceScanAux (a :: (t ++ rest)) d m = braceScanAux rest d m
    conv_lhs => unfold braceScanAux
    rw [if_neg ha.1, if_neg ha.2]
    exact ih h.2 rest d m

theorem takeWhile_all {α : Type} (p : α → Bool) :
    ∀ l : List α, (l.takeWhile p).all p = true := by
  intro l
  induction l with
  | nil => rfl
  | cons a t ih =>
    rw [List.takeWhile_cons]
    by_cases h : p a = true
    · rw [if_pos h, List.all_cons, h, ih]
      rfl
    · rw [if_neg h]
      rfl

theorem spanNonBrace_all (l : List Char) :
    (spanNonBrace l).1.all (fun c => c ≠ '{' && c ≠ '}') = true :=
  takeWhile_all _ l

theorem braceGroups_scan :
    ∀ fuel l gm r, braceGroups fuel l = some (gm, r) →
      ∀ m0, ∃ mm, braceScanAux gm 1 m0 = (0, mm, true) ∧ mm ≤ max m0 2 := by
  intro fuel
  induction fuel with
  | zero =>
    intro l gm r h
    exact absurd h (by simp [braceGroups])
  | succ fuel ih =>
    intro l gm r h
    match l with
    | [] => exact absurd h (by simp [braceGroups])
    | c :: rest =>
      rw [show braceGroups (fuel+1) (c :: rest)
          = (if c = '}' then some (['}'], rest)
            else if c = '{' then
              match spanNonBrace rest with
              | (seg, r1) =>
                match r1 with
                | [] => none
                | c2 :: r2 =>
                  if c2 = '}' then
                    match spanNonBrace r2 with
                    | (seg2, r3) =>
                      match braceGroups fuel r3 with
                      | some (m, r) => some ('{' :: (seg ++ '}' :: (seg2 ++ m)), r)
                      | none => none
                  else none
            else none) from rfl] at h
      by_cases hc : c = '}'
      · rw [if_pos hc] at h
        obtain ⟨hgm, hr⟩ := Prod.mk.inj (Option.some.inj h)
        subst hgm
        intro m0
        refine ⟨m0, ?_, le_max_left m0 2⟩
        rfl
      · rw [if_neg hc] at h
        by_cases hb : c = '{'
        · rw [if_pos hb] at h
          rcases hsp : spanNonBrace rest with ⟨seg, r1⟩
          rw [hsp] at h
          dsimp only at h
          match r1 with
          | [] => exact absurd h (by simp)
          | c2 :: r2 =>
            replace h : (if c2 = '}' then
                match braceGroups fuel (spanNonBrace r2).2 with
                | some (m, r) =>
                  some ('{' :: (seg ++ '}' :: ((spanNonBrace r2).1 ++ m)), r)
                | none => none
              else none) = some (gm, r) := h
            by_cases hc2 : c2 = '}'
            · rw [if_pos hc2] at h
              rcases hsp2 : spanNonBrace r2 with ⟨seg2, r3⟩
              rw [hsp2] at h
              dsimp only at h
              rcases hbg : braceGroups fuel r3 with _ | ⟨m, r'⟩
              · rw [hbg] at h
                exact absurd h (by simp)
              · rw [hbg] at h
                dsimp only at h
                obtain ⟨hgm, hr⟩ := Prod.mk.inj (Option.some.inj h)
                subst hgm
                intro m0
                obtain ⟨mm, hscan, hle⟩ := ih r3 m r' hbg (max m0 2)
                have hseg : seg.all (fun c => c ≠ '{' && c ≠ '}') = true := by
                  have := spanNonBrace_all rest
                  rw [hsp] at this
                  exact this
                have hseg2 : seg2.all (fun c => c ≠ '{' && c ≠ '}') = true := by
                  have := spanNonBrace_all r2
                  rw [hsp2] at this
                  exact this
                refine ⟨mm, ?_, by omega⟩
                show braceScanAux ('{' :: (seg ++ '}' :: (seg2 ++ m))) 1 m0 = (0, mm, true)
                have s1 : braceScanAux ('{' :: (seg ++ '}' :: (seg2 ++ m))) 1 m0
                    = braceScanAux (seg ++ '}' :: (seg2 ++ m)) 2 (max m0 2) := by
                  show (if '{' = '{' then braceScanAux (seg ++ '}' :: (seg2 ++ m)) (1+1) (max m0 (1+1))
                    else _) = _
                  rw [if_pos rfl]
                rw [s1, braceScanAux_nonbrace seg hseg]
                have s2 : braceScanAux ('}' :: (seg2 ++ m)) 2 (max m0 2)
                    = braceScanAux (seg2 ++ m) 1 (max m0 2) := by
                  show (if '}' = '{' then _ else if '}' = '}' then _ else _) = _
                  rw [if_neg (by decide), if_pos rfl]
                rw [s2, braceScanAux_nonbrace seg2 hseg2, hscan]
            · rw [if_neg hc2] at h
              exact absurd h (by simp)
        · rw [if_neg hb] at h
          exact absurd h (by simp)

theorem tryJsonObjAt_shape (fuel : Nat) (l s r : List Char)
    (h : tryJsonObjAt fuel l = some (s, r)) :
    bracesBalanced s = true ∧ maxBraceDepth s ≤ 2 := by
  match l with
  | [] => exact absurd h (by simp [tryJsonObjAt])
  | c :: cs =>
    replace h : (if c = '{' then
        match braceGroups fuel (spanNonBrace cs).2 with
        | some (m, r) => some ('{' :: ((spanNonBrace cs).1 ++ m), r)
        | none => none
      else none) = some (s, r) := h
    by_cases hb : c = '{'
    · rw [if_pos hb] at h
      rcases hsp : spanNonBrace cs with ⟨seg, r1⟩
      rw [hsp] at h
      dsimp only at h
      rcases hbg : braceGroups fuel r1 with _ | ⟨m, r'⟩
      · rw [hbg] at h
        exact absurd h (by simp)
      · rw [hbg] at h
        dsimp only at h
        obtain ⟨hs, hr⟩ := Prod.mk.inj (Option.some.inj h)
        subst hs
        obtain ⟨mm, hscan, hle⟩ := braceGroups_scan fuel r1 m r' hbg (max 0 1)
        have hseg : seg.all (fun c => c ≠ '{' && c ≠ '}') = true := by
          have := spanNonBrace_all cs
          rw [hsp] at this
          exact this
        have hfull : braceScanAux ('{' :: (seg ++ m)) 0 0 = (0, mm, true) := by
          have s1 : braceScanAux ('{' :: (seg ++ m)) 0 0
              = braceScanAux (seg ++ m) 1 (max 0 1) := by
            show (if '{' = '{' then braceScanAux (seg ++ m) (0+1) (max 0 (0+1))
              else _) = _
            rw [if_pos rfl]
          rw [s1, braceScanAux_nonbrace seg hseg, hscan]
        constructor
        · unfold bracesBalanced
          rw [hfull]
          rfl
        · unfold maxBraceDepth
          rw [hfull]
          show mm ≤ 2
          omega
    · rw [if_neg hb] at h
      exact absurd h (by simp)

theorem findallJsonObjF_mem :
    ∀ fuel l s, s ∈ findallJsonObjF fuel l →
      ∃ fuel' l' r, tryJsonObjAt fuel' l' = some (s, r) := by
  intro fuel
  induction fuel with
  | zero =>
    intro l s hs
    rw [show findallJsonObjF 0 l = [] from by cases l <;> rfl] at hs
    cases hs
  | succ fuel ih =>
    intro l s hs
    match l with
    | [] => cases hs
    | c :: cs =>
      rw [show findallJsonObjF (fuel+1) (c :: cs)
          = (match tryJsonObjAt (fuel+1) (c :: cs) with
            | some (m, r) => m :: findallJsonObjF fuel r
            | none => findallJsonObjF fuel cs) from rfl] at hs
      rcases htry : tryJsonObjAt (fuel+1) (c :: cs) with _ | ⟨m, r⟩
      · rw [htry] at hs
        exact ih cs s hs
      · rw [htry] at hs
        rcases List.mem_cons.mp hs with rfl | hmem
        · exact ⟨fuel+1, c :: cs, r, htry⟩
        · exact ih r s hmem

/-- C7 (amended): every candidate the inline/malformed JSON parsers
direct-parse is a match of the one-level-nesting brace pattern: it is
brace-balanced with nesting depth at most 2, so an object nested deeper is
never captured whole — an inner sub-object is extracted instead.  On parse
failure the Repair Cascade is invoked, and a candidate parsing to a JSON
array would flatten to `from_array` Records (vacuous here: candidates are
brace-delimited and parse only to objects). -/
theorem json_object_candidates_shape (content s : List Char)
    (hs : s ∈ findallJsonObjects content) :
    bracesBalanced s = true ∧ maxBraceDepth s ≤ 2 := by
  obtain ⟨fuel', l', r, h⟩ := findallJsonObjF_mem content.length content s hs
  exact tryJsonObjAt_shape fuel' l' s r h

/-- C7 (witness): the one candidate extracted from a depth-3 document is
the depth-2 inner object. -/
theorem json_object_candidates_shape_witness :
    bracesBalanced (chars "\x7b\"b\": \x7b\"c\": 1\x7d\x7d") = true
    ∧ maxBraceDepth (chars "\x7b\"b\": \x7b\"c\": 1\x7d\x7d") ≤ 2 :=
  json_object_candidates_shape (chars "\x7b\"a\": \x7b\"b\": \x7b\"c\": 1\x7d\x7d\x7d")
    (chars "\x7b\"b\": \x7b\"c\": 1\x7d\x7d") (by decide)

/-- C7 (counterexample): the whole section `{"a": {"b": {"c": 1}}}` is a
balanced-brace substring that parses directly as JSON, yet the parser's
candidate list holds only the inner `{"b": {"c": 1}}` and no output Record
carries the field `a` — deeply nested balanced substrings are not
direct-parsed. -/
theorem json_deep_nesting_cex :
    jsonLoads (chars "\x7b\"a\": \x7b\"b\": \x7b\"c\": 1\x7d\x7d\x7d")
      = .ok (.obj [(chars "a", .obj [(chars "b", .obj [(chars "c", .int 1)])])])
    ∧ findallJsonObjects (chars "\x7b\"a\": \x7b\"b\": \x7b\"c\": 1\x7d\x7d\x7d")
        = [chars "\x7b\"b\": \x7b\"c\": 1\x7d\x7d"]
    ∧ (parseJsonSection (chars "\x7b\"a\": \x7b\"b\": \x7b\"c\": 1\x7d\x7d\x7d")).map
        (fun r => recLookup r (chars "a")) = [none] := by
  decide

/-- C5 (counterexample): on `{name: John, age: 30,}` the minimal-fix
strategy produces `{"name": John, "age": 30}` — it quotes bare keys but
not the bare value `John` — so `json.loads` still fails and the cascade
does not succeed via strategy 1 alone. -/
theorem repair_cascade_minimal_fix_cex :
    (jsonLoads (fixMalformedJson (chars "{name: John, age: 30,}"))).toOption = none := by
  decide

/-- C5 (amended): `{name: John, age: 30,}` falls through the minimal and
aggressive strategies — strategy 1 leaves the bare value unquoted,
strategy 2 quotes the value but leaves the keys bare — and is recovered by
manual extraction (strategy 3), whose numeric-field pattern yields the
single field `age: 30`. -/
theorem repair_cascade_manual_extraction :
    attemptJsonFixes (chars "{name: John, age: 30,}")
        = some [(chars "age", Value.int 30)]
    ∧ (jsonLoads (fixMalformedJson (chars "{name: John, age: 30,}"))).toOption = none
    ∧ (jsonLoads (aggressiveJsonFix (chars "{name: John, age: 30,}"))).toOption = none
    ∧ extractJsonFieldsManually (chars "{name: John, age: 30,}")
        = some [(chars "age", Value.int 30)] := by
  decide

theorem find?_setCurrent (sid : List Char) (vid : Nat) :
    ∀ cur : List (List Char × Nat),
      (setCurrent cur sid vid).find? (fun p => p.1 = sid) = some (sid, vid) := by
  intro cur
  induction cur with
  | nil => simp [setCurrent, List.find?_cons]
  | cons p rest ih =>
    obtain ⟨s, v⟩ := p
    by_cases h : s = sid
    · subst h
      simp [setCurrent, List.find?_cons]
    · unfold setCurrent
      rw [if_neg h, List.find?_cons]
      have hd : (decide ((s, v).1 = sid)) = false := decide_eq_false h
      rw [hd]
      exact ih

theorem find?_versions_append (versions : List SchemaVersion) (counter : Nat)
    (hwf : versions.all (fun v => v.version ≤ counter) = true)
    (ver : SchemaVersion) (hv : ver.version = counter + 1) :
    (versions ++ [ver]).find? (fun v => v.version = counter + 1) = some ver := by
  rw [List.find?_append]
  have hnone : versions.find? (fun v => v.version = counter + 1) = none := by
    rw [List.find?_eq_none]
    intro x hx
    rw [List.all_eq_true] at hwf
    have := hwf x hx
    simp only [decide_eq_true_eq] at this ⊢
    omega
  rw [hnone]
  simp [List.find?_cons, hv]

/-- C3: `infer_schema` is idempotent — a second call with the identical
record batch for the same source id returns the same version id and hash
with an empty Change list, and leaves the store untouched, whatever the
clock reads. (Spec-modelled: the engine module is absent from src.) -/
theorem infer_schema_idempotent (records : List Rec) (sid t1 t2 : List Char)
    (st : SchemaStore) (hwf : storeWF st = true) :
    ((infer_schema records sid t2 (infer_schema records sid t1 st).2).1.version
      = (infer_schema records sid t1 st).1.version)
    ∧ ((infer_schema records sid t2 (infer_schema records sid t1 st).2).1.hash
      = (infer_schema records sid t1 st).1.hash)
    ∧ (infer_schema records sid t2 (infer_schema records sid t1 st).2).1.changes = []
    ∧ (infer_schema records sid t2 (infer_schema records sid t1 st).2).2
      = (infer_schema records sid t1 st).2 := by
  rcases hcur : lookupCurrent st sid with _ | cur
  · -- no current version for this source: the first call mints version counter+1
    have h1 : infer_schema records sid t1 st
        = ({ version := st.counter + 1, hash := schemaHash (buildSchema records),
             changes := diffSchemas [] (buildSchema records) },
           { versions := st.versions ++
               [{ version := st.counter + 1, timestamp := t1,
                  hash := schemaHash (buildSchema records),
                  fields := buildSchema records,
                  changes := diffSchemas [] (buildSchema records),
                  sourceId := sid }],
             current := setCurrent st.current sid (st.counter + 1),
             counter := st.counter + 1 }) := by
      unfold infer_schema
      rw [hcur]
    have hl2 : lookupCurrent (infer_schema records sid t1 st).2 sid
        = some { version := st.counter + 1, timestamp := t1,
                 hash := schemaHash (buildSchema records),
                 fields := buildSchema records,
                 changes := diffSchemas [] (buildSchema records),
                 sourceId := sid } := by
      rw [h1]
      unfold lookupCurrent
      dsimp only
      rw [find?_setCurrent sid (st.counter + 1) st.current]
      dsimp only
      exact find?_versions_append st.versions st.counter hwf _ rfl
    have h2gen : ∀ st' : SchemaStore,
        lookupCurrent st' sid
          = some { version := st.counter + 1, timestamp := t1,
                   hash := schemaHash (buildSchema records),
                   fields := buildSchema records,
                   changes := diffSchemas [] (buildSchema records),
                   sourceId := sid } →
        infer_schema records sid t2 st'
          = ({ version := st.counter + 1, hash := schemaHash (buildSchema records),
               changes := [] }, st') := by
      intro st' hst'
      unfold infer_schema
      rw [hst']
      dsimp only
      rw [if_pos rfl]
    rw [h2gen _ hl2, h1]
    exact ⟨rfl, rfl, rfl, rfl⟩
  · by_cases hh : cur.hash = schemaHash (buildSchema records)
    · -- hash already current: both calls are no-ops
      have h1 : infer_schema records sid t1 st
          = ({ version := cur.version, hash := schemaHash (buildSchema records),
               changes := [] }, st) := by
        unfold infer_schema
        rw [hcur]
        dsimp only
        rw [if_pos hh]
      have h2 : infer_schema records sid t2 st
          = ({ version := cur.version, hash := schemaHash (buildSchema records),
               changes := [] }, st) := by
        unfold infer_schema
        rw [hcur]
        dsimp only
        rw [if_pos hh]
      rw [h1]
      rw [h2]
      exact ⟨rfl, rfl, rfl, rfl⟩
    · -- drift: the first call mints a new version diffed against `cur`
      have h1 : infer_schema records sid t1 st
          = ({ version := st.counter + 1, hash := schemaHash (buildSchema records),
               changes := diffSchemas cur.fields (buildSchema records) },
             { versions := st.versions ++
                 [{ version := st.counter + 1, timestamp := t1,
                    hash := schemaHash (buildSchema records),
                    fields := buildSchema records,
                    changes := diffSchemas cur.fields (buildSchema records),
                    sourceId := sid }],
               current := setCurrent st.current sid (st.counter + 1),
               counter := st.counter + 1 }) := by
        unfold infer_schema
        rw [hcur]
        dsimp only
        rw [if_neg hh]
      have hl2 : lookupCurrent (infer_schema records sid t1 st).2 sid
          = some { version := st.counter + 1, timestamp := t1,
                   hash := schemaHash (buildSchema records),
                   fields := buildSchema records,
                   changes := diffSchemas cur.fields (buildSchema records),
                   sourceId := sid } := by
        rw [h1]
        unfold lookupCurrent
        dsimp only
        rw [find?_setCurrent sid (st.counter + 1) st.current]
        dsimp only
        exact find?_versions_append st.versions st.counter hwf _ rfl
      have h2gen : ∀ st' : SchemaStore,
          lookupCurrent st' sid
            = some { version := st.counter + 1, timestamp := t1,
                     hash := schemaHash (buildSchema records),
                     fields := buildSchema records,
                     changes := diffSchemas cur.fields (buildSchema records),
                     sourceId := sid } →
          infer_schema records sid t2 st'
            = ({ version := st.counter + 1, hash := schemaHash (buildSchema records),
                 changes := [] }, st') := by
        intro st' hst'
        unfold infer_schema
        rw [hst']
        dsimp only
        rw [if_pos rfl]
      rw [h2gen _ hl2, h1]
      exact ⟨rfl, rfl, rfl, rfl⟩

/-- C3 (witness): a one-record batch against the empty store — the second
call reuses version 1 and hash, with no changes and no store mutation. -/
theorem infer_schema_idempotent_witness :
    ((infer_schema [[(chars "a", Value.int 1)]] (chars "s") (chars "U")
        (infer_schema [[(chars "a", Value.int 1)]] (chars "s") (chars "T") emptyStore).2).1.version
      = (infer_schema [[(chars "a", Value.int 1)]] (chars "s") (chars "T") emptyStore).1.version)
    ∧ ((infer_schema [[(chars "a", Value.int 1)]] (chars "s") (chars "U")
        (infer_schema [[(chars "a", Value.int 1)]] (chars "s") (chars "T") emptyStore).2).1.hash
      = (infer_schema [[(chars "a", Value.int 1)]] (chars "s") (chars "T") emptyStore).1.hash)
    ∧ (infer_schema [[(chars "a", Value.int 1)]] (chars "s") (chars "U")
        (infer_schema [[(chars "a", Value.int 1)]] (chars "s") (chars "T") emptyStore).2).1.changes = []
    ∧ (infer_schema [[(chars "a", Value.int 1)]] (chars "s") (chars "U")
        (infer_schema [[(chars "a", Value.int 1)]] (chars "s") (chars "T") emptyStore).2).2
      = (infer_schema [[(chars "a", Value.int 1)]] (chars "s") (chars "T") emptyStore).2 :=
  infer_schema_idempotent [[(chars "a", Value.int 1)]] (chars "s")
    (chars "T") (chars "U") emptyStore (by decide)

/-- C9: `export_schema` on an absent version id fails with
`SchemaVersionNotFound` and that is its only failure; a present id yields
the `{version, timestamp, hash, fields, changes}` structure.
(Spec-modelled: the engine module is absent from src; `main.py`'s endpoint
performs the same membership check, and its re-wrapping of the failure
into an HTTP 500 status is transport-layer, excluded by spec §1.) -/
theorem export_schema_spec (vid : Nat) (st : SchemaStore) :
    (st.versions.find? (fun v => v.version = vid) = none →
      export_schema vid st = .error (.schemaVersionNotFound vid))
    ∧ (∀ v, st.versions.find? (fun v' => v'.version = vid) = some v →
      export_schema vid st
        = .ok { version := v.version, timestamp := v.timestamp, hash := v.hash,
                fields := v.fields, changes := v.changes })
    ∧ (∀ e, export_schema vid st = .error e →
      e = .schemaVersionNotFound vid
      ∧ st.versions.find? (fun v => v.version = vid) = none) := by
  refine ⟨?_, ?_, ?_⟩
  · intro h
    unfold export_schema
    rw [h]
  · intro v h
    unfold export_schema
    rw [h]
  · intro e h
    unfold export_schema at h
    rcases hf : st.versions.find? (fun v => v.version = vid) with _ | v
    · rw [hf] at h
      dsimp only at h
      exact ⟨(Except.error.inj h).symm, hf⟩
    · rw [hf] at h
      dsimp only at h
      cases h

/-- C9 (witness): in a store holding only version 1, exporting version 2
fails with `SchemaVersionNotFound 2` and exporting version 1 returns the
full structure. -/
theorem export_schema_spec_witness :
    export_schema 2
        ((infer_schema [[(chars "a", Value.int 1)]] (chars "s") (chars "T") emptyStore).2)
      = .error (.schemaVersionNotFound 2)
    ∧ export_schema 1
        ((infer_schema [[(chars "a", Value.int 1)]] (chars "s") (chars "T") emptyStore).2)
      = .ok { version := 1, timestamp := chars "T",
              hash := [(chars "a", (DataType.integer, 100))],
              fields := [(chars "a", { dtype := DataType.integer, confidence := ⟨1, 1⟩, nullable := false })],
              changes := [Change.field_added (chars "a")] } :=
  ⟨(export_schema_spec 2 _).1 (by decide),
   (export_schema_spec 1 _).2.1
     { version := 1, timestamp := chars "T",
       hash := [(chars "a", (DataType.integer, 100))],
       fields := [(chars "a", { dtype := DataType.integer, confidence := ⟨1, 1⟩, nullable := false })],
       changes := [Change.field_added (chars "a")], sourceId := chars "s" }
     (by decide)⟩
